import Mathlib

/-!
Shallow embedding of the pybridge core (registry, TypeScript generator,
dispatcher, streaming channels) from `src/pybridge/registry.py`,
`src/pybridge/generator.py` and `src/pybridge/bridge.py`, together with
theorems settling the frozen claims about the specification.

Python dictionaries are embedded as insertion-ordered association lists,
Python sets of strings as duplicate-free lists maintained by
insert-if-absent (only membership and sorted views of these sets are ever
consumed by the code), and the wall clock (`datetime.now().isoformat()`)
as an explicit string parameter.  Loops whose termination depends on data
(the generator's model worklist, the recursive model collector) take an
explicit fuel argument computed from the input; fuel sufficiency for the
model collector is proved below (claim C9).
-/

/-! ## Python string helpers (`generator.py` lines 40-48) -/

/-- Embedding of Python's `str.title()` restricted to its effect on
identifier components: a cased character following a non-alphabetic
character is uppercased, every other cased character is lowercased. -/
def pyTitle (s : String) : String :=
  (s.data.foldl
    (fun (acc : List Char × Bool) c =>
      let c' := if acc.2 then c.toLower else c.toUpper
      (acc.1 ++ [c'], c.isAlpha))
    ([], false)).1.asString

/-- Python `str.split(sep)` for a single-character separator, on
character lists: empty input yields one empty component, adjacent
separators yield empty components. -/
def splitOnCharAux (sep : Char) : List Char → List Char → List (List Char)
  | [], acc => [acc.reverse]
  | c :: rest, acc =>
      if c == sep then acc.reverse :: splitOnCharAux sep rest []
      else splitOnCharAux sep rest (c :: acc)

/-- Python `str.split(sep)` for a single-character separator. -/
def splitOnChar (sep : Char) (s : String) : List String :=
  (splitOnCharAux sep s.data []).map List.asString

/-- Python `str.strip()`: drop leading and trailing whitespace. -/
def pyStrip (s : String) : String :=
  ((s.data.dropWhile Char.isWhitespace).reverse.dropWhile
    Char.isWhitespace).reverse.asString

/-- Embedding of `python_name_to_camel_case` (`generator.py` line 40):
split on underscores, keep the first component, title-case the rest. -/
def python_name_to_camel_case (name : String) : String :=
  match splitOnChar '_' name with
  | [] => ""
  | c :: rest => c ++ String.join (rest.map pyTitle)

/-! ## The type-descriptor model

A Python type hint, as the generator and the registry inspect it via
`get_origin` / `get_args` / `isinstance` checks.  `noneType` is
`type(None)`; a hint that is the value `None` itself is represented by
`Option.none` at the entry points that accept it (`_type_to_ts` and
`collect_models_from_type` both start with an `is None` test).
`model` is a Pydantic `BaseModel` subclass, referenced by `__name__`;
`generic` is any other parameterized alias (e.g. `Channel[T]`), whose
`get_origin` is not `None` and which matches none of the special cases;
`otherClass` is a plain class that is neither primitive nor a model. -/
inductive Ty where
  | str
  | int
  | float
  | bool
  | bytes
  | noneType
  | anyT
  | union (args : List Ty)
  | listT (args : List Ty)
  | dictT (args : List Ty)
  | tupleT (args : List Ty)
  | setT (args : List Ty)
  | generic (gname : String) (args : List Ty)
  | model (mname : String)
  | otherClass (cname : String)

/-- Test for `type(None)`, used for the `a is not type(None)` filters. -/
def Ty.isNoneType : Ty → Bool
  | .noneType => true
  | _ => false

/-- Embedding of `typing.get_args`: the argument list of a parameterized
hint, `[]` for anything unparameterized. -/
def pyGetArgs : Ty → List Ty
  | .union args => args
  | .listT args => args
  | .dictT args => args
  | .tupleT args => args
  | .setT args => args
  | .generic _ args => args
  | _ => []

/-- Insert-if-absent on a list standing for a Python `set[str]`
(`set.add`): the code only ever consumes these sets through membership
tests and sorted enumeration. -/
def setAdd (s : List String) (x : String) : List String :=
  if s.contains x then s else s ++ [x]

/-! ## Data model: models, commands, registry -/

/-- A Pydantic field as the generator sees it: `field_info.annotation`
(here `typeAnn`), `field_info.is_required()`, `field_info.description`.
An absent description is `none`; Python's falsy test on an empty
description string is modelled where it is used. -/
structure FieldInfo where
  typeAnn : Ty
  required : Bool
  description : Option String

/-- A registered Pydantic model: `__name__`, `__doc__`, and
`model_fields` in declaration order. -/
structure ModelDef where
  name : String
  doc : Option String
  fields : List (String × FieldInfo)

/-- Runtime values crossing the dispatch boundary.  `pymodel` is a
`BaseModel` instance (class name plus field values), `vdict` a plain
dict, the rest opaque JSON-like scalars. -/
inductive Val where
  | pymodel (mname : String) (fields : List (String × Val))
  | vlist (elems : List Val)
  | vdict (entries : List (String × Val))
  | vstr (s : String)
  | vint (n : Int)
  | vbool (b : Bool)
  | vnone

/-- Outcome of invoking a command handler (`await cmd.func(**kwargs)`): a
normal result, a `TypeError` (parameter-binding mismatch), or any other
exception with its message. -/
inductive PyOutcome where
  | ok (v : Val)
  | typeError (msg : String)
  | exn (msg : String)

/-- Embedding of `CommandInfo` (`registry.py` lines 18-42).  `params` is
the insertion-ordered `Dict[str, Type]`; `func_hints` models
`get_type_hints(cmd.func)` as re-extracted by the generator; `func` is
the request/response handler abstracted to its outcome on given keyword
arguments; `funcStream` is the streaming handler abstracted to the
sequence of payloads it pushes through its channel capability plus an
optional exception message raised afterwards. -/
structure CommandInfo where
  name : String
  params : List (String × Ty)
  return_type : Option Ty
  is_async : Bool
  docstring : Option String
  module : String
  has_channel : Bool
  func_hints : List (String × Ty)
  func : List (String × Val) → PyOutcome
  funcStream : List (String × Val) → List Val × Option String

/-- Embedding of the `CommandRegistry` singleton's state: `_commands` and
`_models`, both insertion-ordered dicts. -/
structure Registry where
  commands : List CommandInfo
  models : List ModelDef

/-- The `ValueError` message of `CommandRegistry.register`
(`registry.py` lines 86-90). -/
def conflict_message (name existingModule newModule : String) : String :=
  "Command name conflict: '" ++ name ++ "' is defined in both '" ++
    existingModule ++ "' and '" ++ newModule ++
    "'. Command names must be unique across all modules."

/-- Embedding of `CommandRegistry.register` (`registry.py` lines 77-91).
The pair is the registry state after the call plus the raised message, if
any: the duplicate check precedes the insertion, so on conflict the state
is returned untouched. -/
def Registry.register (r : Registry) (cmd : CommandInfo) :
    Registry × Option String :=
  match r.commands.find? (fun c => c.name == cmd.name) with
  | some existing =>
      (r, some (conflict_message cmd.name existing.module cmd.module))
  | none => ({ r with commands := r.commands ++ [cmd] }, none)

/-- Embedding of `CommandRegistry.register_model` (`registry.py` lines
93-96): insert-if-absent keyed by `__name__`, first registration wins. -/
def Registry.register_model (r : Registry) (m : ModelDef) : Registry :=
  if (r.models.map ModelDef.name).contains m.name then r
  else { r with models := r.models ++ [m] }

/-! ## Recursive model collection (`registry.py` lines 110-134)

`collect_models_from_type` walks a type hint, recursing through every
parameterized container, and on reaching a `BaseModel` subclass not yet
in `_models` records its name and recurses into its field annotations.
The visited set is `_models` itself, keyed by name.  The embedding
separates the structural walk (`collectStep`, parameterized by what to do
at a fresh model) from the fuel-indexed expansion of model fields
(`collectFuel`); fuel bounds only the model-expansion depth, and
`collectBound` fuel is proved sufficient below (claim C9). -/

/-- Field annotations of a registered class, in declaration order; a name
with no registered class has no fields to recurse into. -/
def lookupFields (env : List ModelDef) (name : String) : List Ty :=
  match env.find? (fun m => m.name == name) with
  | some m => m.fields.map (fun f => f.2.typeAnn)
  | none => []

mutual

/-- One structural walk of `collect_models_from_type` over a hint:
parameterized containers recurse into their `get_args`; a model name not
yet visited is appended and handed to `expand` together with its field
annotations; everything else is ignored. -/
def collectStep (env : List ModelDef)
    (expand : List Ty → List String → List String) :
    Ty → List String → List String
  | .union args, v => collectStepList env expand args v
  | .listT args, v => collectStepList env expand args v
  | .dictT args, v => collectStepList env expand args v
  | .tupleT args, v => collectStepList env expand args v
  | .setT args, v => collectStepList env expand args v
  | .generic _ args, v => collectStepList env expand args v
  | .model name, v =>
      if v.contains name then v
      else expand (lookupFields env name) (v ++ [name])
  | _, v => v

/-- Left-to-right walk over the `get_args` tuple. -/
def collectStepList (env : List ModelDef)
    (expand : List Ty → List String → List String) :
    List Ty → List String → List String
  | [], v => v
  | t :: ts, v => collectStepList env expand ts (collectStep env expand t v)

end

/-- Fuel-indexed `collect_models_from_type`: at each model expansion the
field annotations are collected with one unit of fuel less.  Exhausted
fuel skips the fields of a freshly visited model - unreachable with the
fuel bound used below, as claim C9 proves. -/
def collectFuel (env : List ModelDef) : Nat → Ty → List String → List String
  | 0, t, v => collectStep env (fun _ w => w) t v
  | f + 1, t, v =>
      collectStep env
        (fun fields w => fields.foldl (fun acc ty => collectFuel env f ty acc) w)
        t v

/-- Distinct registered model names. -/
def modelNamesDedup (env : List ModelDef) : List String :=
  (env.map ModelDef.name).dedup

/-- Number of distinct registered model names not yet visited: each model
expansion strictly decreases it, so it bounds the expansion depth. -/
def collectBound (env : List ModelDef) (visited : List String) : Nat :=
  ((modelNamesDedup env).filter (fun n => !visited.contains n)).length

/-- Embedding of `CommandRegistry.collect_models_from_type`
(`registry.py` lines 110-134).  The first argument is the registry's
model environment (each name's `model_fields` are read off its class);
the visited set is the current `_models` key set, returned updated.
`Option.none` is the `type_hint is None` early return. -/
def collect_models_from_type (env : List ModelDef) :
    Option Ty → List String → List String
  | none, v => v
  | some t, v => collectFuel env (collectBound env v) t v

/-! ## The type mapper (`generator.py` lines 66-150)

`_type_to_ts` threads the mutable `models_to_generate : set[str]` through
the translation; the embedding passes it explicitly and returns it
updated.  The `Union` case with exactly one non-`None` variant and a
`None` variant collapses to `inner | null`; the general case joins every
mapped variant in order.  `tyToTsFirstNonNone` translates
`non_none_args[0]`, which in the collapsing case is the unique
non-`None` variant. -/

mutual

/-- Embedding of `TypeScriptGenerator._type_to_ts` on a hint that is not
the value `None` (that case is `type_to_ts` below). -/
def tyToTs : Ty → List String → String × List String
  | .str, s => ("string", s)
  | .int, s => ("number", s)
  | .float, s => ("number", s)
  | .bool, s => ("boolean", s)
  | .bytes, s => ("string", s)
  | .noneType, s => ("null", s)
  | .anyT, s => ("unknown", s)
  | .union args, s =>
      if (args.filter (fun a => !a.isNoneType)).length == 1 &&
          args.any Ty.isNoneType then
        let (inner, s') := tyToTsFirstNonNone args s
        (inner ++ " | null", s')
      else
        let (parts, s') := tyToTsList args s
        (String.intercalate " | " parts, s')
  | .listT args, s =>
      match args with
      | a :: _ => let (inner, s') := tyToTs a s; (inner ++ "[]", s')
      | [] => ("unknown[]", s)
  | .dictT args, s =>
      match args with
      | k :: val :: _ =>
          let (kt, s') := tyToTs k s
          let (vt, s'') := tyToTs val s'
          let kt' := if kt == "string" || kt == "number" then kt else "string"
          ("Record<" ++ kt' ++ ", " ++ vt ++ ">", s'')
      | _ => ("Record<string, unknown>", s)
  | .tupleT args, s =>
      match args with
      | _ :: _ =>
          let (parts, s') := tyToTsList args s
          ("[" ++ String.intercalate ", " parts ++ "]", s')
      | [] => ("unknown[]", s)
  | .setT args, s =>
      match args with
      | a :: _ => let (inner, s') := tyToTs a s; (inner ++ "[]", s')
      | [] => ("unknown[]", s)
  | .generic _ _, s => ("unknown", s)
  | .model name, s => (name, setAdd s name)
  | .otherClass _, s => ("unknown", s)

/-- Translation of `non_none_args[0]`: the first variant that is not
`type(None)`. -/
def tyToTsFirstNonNone : List Ty → List String → String × List String
  | [], s => ("", s)
  | t :: ts, s => if t.isNoneType then tyToTsFirstNonNone ts s else tyToTs t s

/-- Left-to-right translation of a variant list, threading the model
set, as the list comprehension over `args` does. -/
def tyToTsList : List Ty → List String → List String × List String
  | [], s => ([], s)
  | t :: ts, s =>
      let (x, s') := tyToTs t s
      let (xs, s'') := tyToTsList ts s'
      (x :: xs, s'')

end

/-- Embedding of `_type_to_ts` including its `type_hint is None` entry
test (`generator.py` line 77): the value `None` maps to `void`. -/
def type_to_ts : Option Ty → List String → String × List String
  | none, s => ("void", s)
  | some t, s => tyToTs t s

/-! ## Code generation (`generator.py` lines 152-559) -/

/-- JSDoc block emitted for a docstring (`generator.py` lines 169-174 and
253-257): skipped when the docstring is absent or empty (Python
truthiness), otherwise the stripped docstring is split into lines, each
stripped again. -/
def jsdocLines : Option String → List String
  | none => []
  | some doc =>
      if doc.data.isEmpty then []
      else
        ["/**"] ++
          (splitOnChar (Char.ofNat 10) (pyStrip doc)).map
            (fun line => " * " ++ pyStrip line) ++ [" */"]

/-- Lines for one interface field (`generator.py` lines 178-196):
camel-cased name, mapped type, `?` when the field has a default or its
annotation is an `Optional`-shaped union, preceded by a description
comment when a non-empty description exists. -/
def fieldLines (fld : String × FieldInfo) (s : List String) :
    List String × List String :=
  let ts_name := python_name_to_camel_case fld.1
  let (ts_type, s') := tyToTs fld.2.typeAnn s
  let is_optional :=
    !fld.2.required ||
      (match fld.2.typeAnn with
       | .union args => args.any Ty.isNoneType
       | _ => false)
  let optional_mark := if is_optional then "?" else ""
  let descLines :=
    match fld.2.description with
    | some d => if d.isEmpty then [] else ["    /** " ++ d ++ " */"]
    | none => []
  (descLines ++ ["    " ++ ts_name ++ optional_mark ++ ": " ++ ts_type ++ ";"],
   s')

/-- Embedding of `TypeScriptGenerator._generate_model_interface`
(`generator.py` lines 152-199). -/
def generate_model_interface (m : ModelDef) (s : List String) :
    String × List String :=
  let docLines := jsdocLines m.doc
  let (fieldPart, s') :=
    m.fields.foldl
      (fun (acc : List String × List String) fld =>
        let (ls, s'') := fieldLines fld acc.2
        (acc.1 ++ ls, s''))
      ([], s)
  (String.intercalate "\n"
      (docLines ++ ["export interface " ++ m.name ++ " \x7b"] ++ fieldPart ++
        ["\x7d"]),
   s')

/-- The channel payload type of a streaming stub (`generator.py` lines
233-246): the mapped first generic argument of the function's `channel`
annotation, `unknown` when the annotation or its arguments are absent. -/
def channel_return_type (cmd : CommandInfo) (s : List String) :
    String × List String :=
  match cmd.func_hints.lookup "channel" with
  | some ch =>
      match pyGetArgs ch with
      | a :: _ => tyToTs a s
      | [] => ("unknown", s)
  | none => ("unknown", s)

/-- Embedding of `TypeScriptGenerator._generate_command_function`
(`generator.py` lines 201-289). -/
def generate_command_function (cmd : CommandInfo) (s : List String) :
    String × List String :=
  let fn_name := python_name_to_camel_case cmd.name
  let (params_type, s1) :=
    if cmd.params.isEmpty then ("void", s)
    else
      let (fields, s') :=
        cmd.params.foldl
          (fun (acc : List String × List String) pt =>
            let (ts, s'') := tyToTs pt.2 acc.2
            (acc.1 ++ [python_name_to_camel_case pt.1 ++ ": " ++ ts], s''))
          ([], s)
      ("\x7b " ++ String.intercalate "; " fields ++ " \x7d", s')
  let (return_type, s2) :=
    if cmd.has_channel then channel_return_type cmd s1
    else
      let (rt, s') := type_to_ts cmd.return_type s1
      (if rt == "void" || rt == "null" then "void" else rt, s')
  let docPart := jsdocLines cmd.docstring
  let fnPart :=
    if cmd.has_channel then
      if !cmd.params.isEmpty then
        ["export function " ++ fn_name ++ "(args: " ++ params_type ++
           "): BridgeChannel<" ++ return_type ++ "> \x7b",
         "    return createChannel(\"" ++ cmd.name ++ "\", args);",
         "\x7d"]
      else
        ["export function " ++ fn_name ++ "(): BridgeChannel<" ++
           return_type ++ "> \x7b",
         "    return createChannel(\"" ++ cmd.name ++ "\", \x7b\x7d);",
         "\x7d"]
    else
      if !cmd.params.isEmpty then
        ["export async function " ++ fn_name ++ "(args: " ++ params_type ++
           "): Promise<" ++ return_type ++ "> \x7b",
         "    return request(\"" ++ cmd.name ++ "\", args);",
         "\x7d"]
      else
        ["export async function " ++ fn_name ++ "(): Promise<" ++
           return_type ++ "> \x7b",
         "    return request(\"" ++ cmd.name ++ "\", \x7b\x7d);",
         "\x7d"]
  (String.intercalate "\n" (docPart ++ fnPart), s2)

/-! ## Sorting (Python `sorted`)

Python `sorted` is a stable sort; the keys here compare by code-point
lexicographic string order.  The embedding uses a stable insertion sort
over an explicit boolean comparison that the kernel can evaluate. -/

/-- Code-point lexicographic order on character lists. -/
def strLeAux : List Char → List Char → Bool
  | [], _ => true
  | _ :: _, [] => false
  | c :: cs, d :: ds =>
      if c.toNat < d.toNat then true
      else if d.toNat < c.toNat then false
      else strLeAux cs ds

/-- Code-point lexicographic order on strings, Python's `<=` on `str`. -/
def strLe (a b : String) : Bool := strLeAux a.data b.data

/-- Stable insertion into a sorted list. -/
def insertLe {α : Type} (le : α → α → Bool) (a : α) : List α → List α
  | [] => [a]
  | b :: bs => if le a b then a :: b :: bs else b :: insertLe le a bs

/-- Stable sort by a boolean comparison, Python's `sorted`. -/
def pySorted {α : Type} (le : α → α → Bool) (l : List α) : List α :=
  l.foldr (insertLe le) []

/-! ## The generator driver (`generator.py` lines 472-559)

`generate` enumerates the commands sorted by name, emitting stubs and
accumulating referenced model names, seeds the worklist with every
registered model, and drains the worklist in sorted batches, emitting an
interface per resolvable name and silently marking unresolvable names as
generated.  The wall clock read embedded in the header is the `now`
parameter.  The companion `_internal.ts` artifact is a fixed string
constant independent of the registry (`_generate_internal_module`) and is
not modelled. -/

/-- One pass of the inner `for model_name in sorted(current_batch)` loop
(`generator.py` lines 533-538): resolvable names emit an interface and
extend the worklist with newly referenced names; unresolvable names are
skipped; every batch name is added to `generated_models`. -/
def processBatch (models : List ModelDef) :
    List String → List String → List String → List String →
    List String × List String × List String
  | [], mtg, gen, acc => (mtg, gen, acc)
  | n :: rest, mtg, gen, acc =>
      match models.find? (fun m => m.name == n) with
      | some m =>
          let (code, mtg') := generate_model_interface m mtg
          processBatch models rest mtg' (setAdd gen n) (acc ++ [code])
      | none => processBatch models rest mtg (setAdd gen n) acc

/-- The `while models_to_generate - generated_models` loop
(`generator.py` lines 531-538), fuel-indexed; each iteration adds at
least one fresh name to `generated_models`, so the fuel passed by
`generate` suffices. -/
def genModelLoop (models : List ModelDef) :
    Nat → List String → List String → List String →
    List String × List String
  | 0, _, gen, acc => (acc, gen)
  | fuel + 1, mtg, gen, acc =>
      let batch := mtg.filter (fun n => !gen.contains n)
      if batch.isEmpty then (acc, gen)
      else
        let (mtg', gen', acc') :=
          processBatch models (pySorted strLe batch) mtg gen acc
        genModelLoop models fuel mtg' gen' acc'

mutual

/-- Size of a type hint, an upper bound on the model references inside
it; used only to compute loop fuel. -/
def tySize : Ty → Nat
  | .union args => 1 + tySizeList args
  | .listT args => 1 + tySizeList args
  | .dictT args => 1 + tySizeList args
  | .tupleT args => 1 + tySizeList args
  | .setT args => 1 + tySizeList args
  | .generic _ args => 1 + tySizeList args
  | _ => 1

def tySizeList : List Ty → Nat
  | [] => 0
  | t :: ts => tySize t + tySizeList ts

end

/-- Upper bound on the number of worklist-loop iterations: every name
ever on the worklist is an initial seed or a model reference inside some
registered model's fields, and the size of a field annotation bounds the
references inside it. -/
def generatorFuel (models : List ModelDef) (mtg : List String) : Nat :=
  mtg.length +
    (models.map
      (fun m => (m.fields.map (fun f => tySize f.2.typeAnn)).sum)).sum + 1

/-- The generated-file header (`generator.py` lines 505-514): the
f-string with the timestamp interpolated. -/
def generateHeader (now : String) : String :=
  "/* Auto-generated by PyBridge - DO NOT EDIT */\n/* Generated: " ++ now ++
    " */\n\nimport \x7b initBridge, request, createChannel, BridgeRequestError \x7d from \"./_internal\";\nimport type \x7b BridgeChannel, BridgeError \x7d from \"./_internal\";\n\n// Re-export initialization and error types\nexport \x7b initBridge, BridgeRequestError \x7d;\nexport type \x7b BridgeChannel, BridgeError \x7d;\n"

/-- Command enumeration used by the generator (`generator.py` line 518):
`sorted(commands.values(), key=lambda c: c.name)`. -/
def generatorCommandOrder (cmds : List CommandInfo) : List CommandInfo :=
  pySorted (fun a b => strLe a.name b.name) cmds

/-- Embedding of `TypeScriptGenerator.generate` (`generator.py` lines
472-559), as a function from the registry state and the clock reading to
the content of the generated client file. -/
def generate (cmds : List CommandInfo) (models : List ModelDef)
    (now : String) : String :=
  let (command_functions, mtg1) :=
    (generatorCommandOrder cmds).foldl
      (fun (acc : List String × List String) c =>
        let (code, s') := generate_command_function c acc.2
        (acc.1 ++ [code], s'))
      ([], [])
  let mtg2 := models.foldl (fun s m => setAdd s m.name) mtg1
  let (model_interfaces, _gen) :=
    genModelLoop models (generatorFuel models mtg2) mtg2 [] []
  let sections :=
    [generateHeader now] ++
      (if model_interfaces.isEmpty then []
       else ["// ============ Interfaces ============\n",
             String.intercalate "\n\n" model_interfaces, ""]) ++
      (if command_functions.isEmpty then []
       else ["\n// ============ Commands ============\n",
             String.intercalate "\n\n" command_functions])
  String.intercalate "\n" sections

/-! ## The command decorator (`registry.py` lines 141-234) -/

/-- Embedding of the `CommandInfo` constructed by the `@command`
decorator (`registry.py` lines 161-214): the command name defaults to the
function name when no custom name is given or the custom name is empty
(Python truthiness of `name or fn.__name__`), the parameter named
`channel` is excluded from `params`
and instead sets `has_channel`, each remaining parameter takes its hint
(defaulting to `Any`), and the return hint is `hints.get("return")`. -/
def build_command_info (customName : Option String) (fnName : String)
    (sig : List String) (hints : List (String × Ty)) (doc : Option String)
    (module : String) (isAsync : Bool)
    (func : List (String × Val) → PyOutcome)
    (funcStream : List (String × Val) → List Val × Option String) :
    CommandInfo :=
  { name :=
      match customName with
      | some n => if n.data.isEmpty then fnName else n
      | none => fnName
    params :=
      sig.filterMap fun p =>
        if p == "channel" then none
        else some (p, (hints.lookup p).getD Ty.anyT)
    return_type := hints.lookup "return"
    is_async := isAsync
    docstring := doc
    module := module
    has_channel := sig.contains "channel"
    func_hints := hints
    func := func
    funcStream := funcStream }

/-! ## The dispatcher (`bridge.py` lines 138-153 and 273-348) -/

/-- An entry of the `/commands` directory listing (`bridge.py` lines
144-152). -/
structure CommandListing where
  name : String
  module : String
  has_channel : Bool
  params : List String

/-- Embedding of the `/commands` endpoint body (`bridge.py` lines
138-153): one entry per registered command, in the registry dict's
iteration order. -/
def list_commands (cmds : List CommandInfo) : List CommandListing :=
  cmds.map fun c => ⟨c.name, c.module, c.has_channel, c.params.map Prod.fst⟩

/-- Argument binding of `Bridge._execute_command` (`bridge.py` lines
294-297): exactly the declared parameter names that occur in the request
args, in parameter order. -/
def bind_arguments (cmd : CommandInfo) (args : List (String × Val)) :
    List (String × Val) :=
  cmd.params.filterMap fun pt => (args.lookup pt.1).map fun v => (pt.1, v)

mutual

/-- Pydantic `model_dump`: a model instance becomes a plain dict,
recursively through nested models, lists and dicts. -/
def model_dump : Val → Val
  | .pymodel _ fields => .vdict (modelDumpFields fields)
  | .vlist xs => .vlist (modelDumpList xs)
  | .vdict es => .vdict (modelDumpFields es)
  | v => v

def modelDumpFields : List (String × Val) → List (String × Val)
  | [] => []
  | (k, v) :: rest => (k, model_dump v) :: modelDumpFields rest

def modelDumpList : List Val → List Val
  | [] => []
  | v :: rest => model_dump v :: modelDumpList rest

end

/-- Test for `isinstance(result, BaseModel)`. -/
def Val.isBaseModel : Val → Bool
  | .pymodel _ _ => true
  | _ => false

/-- Result normalization of `Bridge._execute_command` (`bridge.py` lines
302-311): a model instance is dumped; a list dumps its model items;
anything else passes through. -/
def serialize_result (v : Val) : Val :=
  match v with
  | .pymodel n f => model_dump (.pymodel n f)
  | .vlist xs =>
      .vlist (xs.map fun item => if item.isBaseModel then model_dump item else item)
  | _ => v

/-- Result of the dispatcher: success, `ValidationError`, or
`CommandExecutionError` (`errors.py` taxonomy as raised in
`bridge.py` lines 313-317). -/
inductive ExecResult where
  | ok (v : Val)
  | validationError (msg : String)
  | commandExecutionError (msg : String)

/-- Embedding of `Bridge._execute_command` (`bridge.py` lines 273-317):
bind the matching args, invoke the handler, serialize the result; a
`TypeError` becomes `ValidationError("Invalid arguments: ...")`, any
other exception becomes `CommandExecutionError` with its message. -/
def execute_command (cmd : CommandInfo) (args : List (String × Val)) :
    ExecResult :=
  match cmd.func (bind_arguments cmd args) with
  | .ok v => .ok (serialize_result v)
  | .typeError e => .validationError ("Invalid arguments: " ++ e)
  | .exn e => .commandExecutionError e

/-! ## Channels

The module `pybridge/channel.py` is imported by `bridge.py` and
`__init__.py` but is not present under `src/`; the `Channel` operations
are therefore modelled from the spec (sections 3 and 4.5). -/

/-- Modelled from the spec: the `Frame` message unit of
`pybridge/channel.py` (absent from `src/`), `kind ∈ {data, error,
close}` with a payload for `data` and an error message for `error`. -/
inductive Frame where
  | data (payload : Val)
  | error (message : String)
  | close

/-- A terminal frame is `error` or `close`. -/
def Frame.isTerminal : Frame → Bool
  | .data _ => false
  | _ => true

/-- Modelled from the spec: a `Channel` of `pybridge/channel.py` (absent
from `src/`): a FIFO of frames; the channel is logically terminal once a
terminal frame has been enqueued. -/
structure Channel where
  frames : List Frame

/-- A channel that has enqueued a terminal frame. -/
def Channel.isTerminated (c : Channel) : Bool := c.frames.any Frame.isTerminal

/-- Modelled from the spec: `Channel.send` - enqueue a data frame; after
a terminal frame it is a no-op that never raises. -/
def Channel.send (c : Channel) (v : Val) : Channel :=
  if c.isTerminated then c else ⟨c.frames ++ [.data v]⟩

/-- Modelled from the spec: `Channel.send_error` - enqueue the terminal
error frame, idempotent. -/
def Channel.send_error (c : Channel) (msg : String) : Channel :=
  if c.isTerminated then c else ⟨c.frames ++ [.error msg]⟩

/-- Modelled from the spec: `Channel.close` - enqueue the terminal close
frame, idempotent. -/
def Channel.close (c : Channel) : Channel :=
  if c.isTerminated then c else ⟨c.frames ++ [.close]⟩

/-- Modelled from the spec: `ChannelManager.create` returns a fresh open
channel with an empty queue. -/
def freshChannel : Channel := ⟨[]⟩

/-- Embedding of `Bridge._execute_channel_command` (`bridge.py` lines
319-348): bind the matching args, run the streaming handler with the
channel capability (abstracted to the payload sequence it sends plus an
optional exception), then close the channel on normal return or push an
error frame with the failure message on an exception.  The function is
total: no exception escapes to the dispatcher's caller. -/
def execute_channel_command (cmd : CommandInfo)
    (args : List (String × Val)) (ch : Channel) : Channel :=
  let kwargs := bind_arguments cmd args
  let (sends, outcome) := cmd.funcStream kwargs
  let ch' := sends.foldl Channel.send ch
  match outcome with
  | none => ch'.close
  | some e => ch'.send_error e

/-- A producer-side operation on a channel, for stating the framing
contract over arbitrary producer behaviours. -/
inductive ProducerOp where
  | send (v : Val)
  | sendError (msg : String)
  | closeOp

/-- A terminal producer operation. -/
def ProducerOp.isTerminal : ProducerOp → Bool
  | .send _ => false
  | _ => true

/-- Apply one producer operation to a channel. -/
def applyOp (c : Channel) : ProducerOp → Channel
  | .send v => c.send v
  | .sendError msg => c.send_error msg
  | .closeOp => c.close

/-- Apply a sequence of producer operations in order. -/
def applyOps (c : Channel) (ops : List ProducerOp) : Channel :=
  ops.foldl applyOp c

/-- The frame a terminal producer operation enqueues (junk for `send`,
which is never terminal). -/
def ProducerOp.terminalFrame : ProducerOp → Frame
  | .sendError msg => .error msg
  | _ => .close

/-- The data frame of a `send` operation, `none` otherwise. -/
def ProducerOp.dataFrame : ProducerOp → Option Frame
  | .send v => some (.data v)
  | _ => none

/-- Embedding of the consumer loop of the `/channel/stream` endpoint
(`bridge.py` lines 216-223): frames are yielded in order and iteration
stops right after the first `close` or `error` frame. -/
def observeFrames : List Frame → List Frame
  | [] => []
  | f :: rest => if f.isTerminal then [f] else f :: observeFrames rest

/-! ## Properties of the string order and of `pySorted` -/

theorem strLeAux_total : ∀ xs ys, strLeAux xs ys = true ∨ strLeAux ys xs = true := by
  intro xs
  induction xs with
  | nil => intro ys; left; rfl
  | cons c cs ih =>
    intro ys
    cases ys with
    | nil => right; rfl
    | cons d ds =>
      simp only [strLeAux]
      rcases Nat.lt_trichotomy c.toNat d.toNat with h | h | h
      · left; simp [h]
      · have h1 : ¬ c.toNat < d.toNat := by omega
        have h2 : ¬ d.toNat < c.toNat := by omega
        simp only [if_neg h1, if_neg h2]
        exact ih ds
      · right; simp [h]

theorem strLeAux_cons_iff (c d : Char) (cs ds : List Char) :
    strLeAux (c :: cs) (d :: ds) = true ↔
      c.toNat < d.toNat ∨ (c.toNat = d.toNat ∧ strLeAux cs ds = true) := by
  simp only [strLeAux]
  by_cases h1 : c.toNat < d.toNat
  · simp [h1]
  · by_cases h2 : d.toNat < c.toNat
    · simp [h1, h2]; omega
    · have he : c.toNat = d.toNat := by omega
      simp [h1, h2, he]

theorem strLeAux_trans :
    ∀ xs ys zs, strLeAux xs ys = true → strLeAux ys zs = true →
      strLeAux xs zs = true := by
  intro xs
  induction xs with
  | nil => intro ys zs _ _; rfl
  | cons c cs ih =>
    intro ys zs h1 h2
    cases ys with
    | nil => simp [strLeAux] at h1
    | cons d ds =>
      cases zs with
      | nil => simp [strLeAux] at h2
      | cons e es =>
        rw [strLeAux_cons_iff] at h1 h2 ⊢
        rcases h1 with h1 | ⟨h1e, h1r⟩
        · rcases h2 with h2 | ⟨h2e, _⟩
          · exact Or.inl (by omega)
          · exact Or.inl (by omega)
        · rcases h2 with h2 | ⟨h2e, h2r⟩
          · exact Or.inl (by omega)
          · exact Or.inr ⟨by omega, ih ds es h1r h2r⟩

theorem strLeAux_antisymm :
    ∀ xs ys, strLeAux xs ys = true → strLeAux ys xs = true → xs = ys := by
  intro xs
  induction xs with
  | nil =>
    intro ys _ h2
    cases ys with
    | nil => rfl
    | cons d ds => simp [strLeAux] at h2
  | cons c cs ih =>
    intro ys h1 h2
    cases ys with
    | nil => simp [strLeAux] at h1
    | cons d ds =>
      rw [strLeAux_cons_iff] at h1 h2
      rcases h1 with h1 | ⟨h1e, h1r⟩
      · rcases h2 with h2 | ⟨h2e, _⟩ <;> omega
      · rcases h2 with h2 | ⟨h2e, h2r⟩
        · omega
        · have hc : c = d := Char.ext (UInt32.toNat.inj h1e)
          rw [hc, ih ds h1r h2r]

theorem strLe_total (a b : String) : strLe a b = true ∨ strLe b a = true :=
  strLeAux_total a.data b.data

theorem strLe_trans {a b c : String} (h1 : strLe a b = true)
    (h2 : strLe b c = true) : strLe a c = true :=
  strLeAux_trans a.data b.data c.data h1 h2

theorem strLe_antisymm {a b : String} (h1 : strLe a b = true)
    (h2 : strLe b a = true) : a = b :=
  String.ext (strLeAux_antisymm a.data b.data h1 h2)

theorem insertLe_perm {α : Type} (le : α → α → Bool) (a : α) :
    ∀ l : List α, (insertLe le a l).Perm (a :: l) := by
  intro l
  induction l with
  | nil => exact List.Perm.refl _
  | cons b bs ih =>
    simp only [insertLe]
    by_cases h : le a b = true
    · simp only [if_pos h]
      exact List.Perm.refl _
    · simp only [if_neg h]
      exact List.Perm.trans (ih.cons b) (List.Perm.swap a b bs)

theorem pySorted_perm {α : Type} (le : α → α → Bool) :
    ∀ l : List α, (pySorted le l).Perm l := by
  intro l
  induction l with
  | nil => exact List.Perm.refl _
  | cons a as ih =>
    simp only [pySorted, List.foldr] at ih ⊢
    exact List.Perm.trans (insertLe_perm le a _) (ih.cons a)

theorem mem_insertLe {α : Type} (le : α → α → Bool) (a x : α) (l : List α) :
    x ∈ insertLe le a l ↔ x = a ∨ x ∈ l :=
  by
    constructor
    · intro h
      have := (insertLe_perm le a l).mem_iff.mp h
      simp only [List.mem_cons] at this
      exact this
    · intro h
      apply (insertLe_perm le a l).mem_iff.mpr
      simpa using h

theorem insertLe_pairwise {α : Type} (le : α → α → Bool)
    (htot : ∀ a b, le a b = true ∨ le b a = true)
    (htr : ∀ a b c, le a b = true → le b c = true → le a c = true)
    (a : α) :
    ∀ l : List α, List.Pairwise (fun x y => le x y = true) l →
      List.Pairwise (fun x y => le x y = true) (insertLe le a l) := by
  intro l
  induction l with
  | nil => intro _; simp only [insertLe]; exact List.pairwise_singleton _ a
  | cons b bs ih =>
    intro hp
    have hpb := List.pairwise_cons.mp hp
    simp only [insertLe]
    by_cases h : le a b = true
    · simp only [if_pos h]
      apply List.pairwise_cons.mpr
      refine ⟨?_, hp⟩
      intro x hx
      rcases List.mem_cons.mp hx with hx | hx
      · rw [hx]; exact h
      · exact htr a b x h (hpb.1 x hx)
    · simp only [if_neg h]
      apply List.pairwise_cons.mpr
      constructor
      · intro x hx
        rcases (mem_insertLe le a x bs).mp hx with hx | hx
        · rw [hx]
          rcases htot a b with h' | h'
          · exact absurd h' h
          · exact h'
        · exact hpb.1 x hx
      · exact ih hpb.2

theorem pySorted_pairwise {α : Type} (le : α → α → Bool)
    (htot : ∀ a b, le a b = true ∨ le b a = true)
    (htr : ∀ a b c, le a b = true → le b c = true → le a c = true) :
    ∀ l : List α, List.Pairwise (fun x y => le x y = true) (pySorted le l) := by
  intro l
  induction l with
  | nil => simp [pySorted]
  | cons a as ih =>
    simpa [pySorted] using insertLe_pairwise le htot htr a _ ih

/-- Sorted string lists that are permutations of each other are equal:
the string comparison is a genuine linear order. -/
theorem sorted_strings_unique {l₁ l₂ : List String} (hp : l₁.Perm l₂)
    (h1 : List.Pairwise (fun x y => strLe x y = true) l₁)
    (h2 : List.Pairwise (fun x y => strLe x y = true) l₂) : l₁ = l₂ := by
  haveI : IsAntisymm String (fun x y => strLe x y = true) :=
    ⟨fun _ _ ha hb => strLe_antisymm ha hb⟩
  exact List.eq_of_perm_of_sorted hp h1 h2

/-- Two sorted enumerations of permuted command lists with no duplicate
names are identical. -/
theorem generatorCommandOrder_eq_of_perm {l₁ l₂ : List CommandInfo}
    (hp : l₁.Perm l₂) (hn : (l₁.map CommandInfo.name).Nodup) :
    generatorCommandOrder l₁ = generatorCommandOrder l₂ := by
  haveI : IsAntisymm CommandInfo
      (fun a b => strLe a.name b.name = true ∧ a.name ≠ b.name) :=
    ⟨fun a b ha hb => absurd (strLe_antisymm ha.1 hb.1) ha.2⟩
  have hperm : (generatorCommandOrder l₁).Perm (generatorCommandOrder l₂) :=
    List.Perm.trans (pySorted_perm _ l₁)
      (List.Perm.trans hp (pySorted_perm _ l₂).symm)
  have hle : ∀ l : List CommandInfo,
      List.Pairwise (fun a b => strLe a.name b.name = true)
        (generatorCommandOrder l) := by
    intro l
    exact pySorted_pairwise (fun a b : CommandInfo => strLe a.name b.name)
      (fun a b => strLe_total a.name b.name)
      (fun a b c hab hbc => strLe_trans hab hbc) l
  have hnodup : ∀ {l : List CommandInfo}, l.Perm l₁ →
      List.Pairwise (fun a b : CommandInfo => a.name ≠ b.name) l := by
    intro l hl
    have : (l.map CommandInfo.name).Nodup :=
      ((hl.map CommandInfo.name).nodup_iff).mpr hn
    exact List.Pairwise.of_map CommandInfo.name (fun a b h => h) this
  have hs1 : List.Pairwise
      (fun a b : CommandInfo => strLe a.name b.name = true ∧ a.name ≠ b.name)
      (generatorCommandOrder l₁) :=
    (hle l₁).and (hnodup (pySorted_perm _ l₁))
  have hs2 : List.Pairwise
      (fun a b : CommandInfo => strLe a.name b.name = true ∧ a.name ≠ b.name)
      (generatorCommandOrder l₂) :=
    (hle l₂).and (hnodup ((pySorted_perm _ l₂).trans hp.symm))
  exact List.eq_of_perm_of_sorted hperm hs1 hs2

/-! ## Example fixtures used by counterexamples and witnesses -/

/-- A trivial request/response handler used by example commands. -/
def dummyFunc : List (String × Val) → PyOutcome := fun _ => PyOutcome.ok Val.vnone

/-- A trivial streaming handler used by example commands. -/
def dummyStream : List (String × Val) → List Val × Option String := fun _ => ([], none)

/-- Example command named `a`, registered from module `modA`. -/
def cmdNamedA : CommandInfo :=
  ⟨"a", [], none, true, none, "modA", false, [], dummyFunc, dummyStream⟩

/-- Example command named `b`, registered from module `modB`. -/
def cmdNamedB : CommandInfo :=
  ⟨"b", [], none, true, none, "modB", false, [], dummyFunc, dummyStream⟩

/-- Example command whose return annotation references the model name
`Ghost`, which is never registered in the model registry. -/
def ghostCmd : CommandInfo :=
  build_command_info none "get_ghost" [] [("return", Ty.model "Ghost")] none
    "modG" true dummyFunc dummyStream

/-- Example registered model `Point \x7bx: int, y: int\x7d`. -/
def pointModel : ModelDef :=
  ⟨"Point", none, [("x", ⟨Ty.int, true, none⟩), ("y", ⟨Ty.int, true, none⟩)]⟩

/-! ## Claim C3: enumeration order -/

/-- C3, counterexample: the `/commands` directory endpoint enumerates the
registry dict in insertion order, not sorted by name - a registry holding
`b` then `a` is listed as `b, a`, which is not sorted. -/
theorem C3_counterexample :
    (list_commands [cmdNamedB, cmdNamedA]).map CommandListing.name = ["b", "a"] ∧
    ¬ List.Pairwise (fun x y : String => strLe x y = true) ["b", "a"] := by
  constructor
  · rfl
  · intro h
    have := (List.pairwise_cons.mp h).1 "a" (by simp)
    simp [strLe, strLeAux] at this

/-- C3, amended: the command enumeration used by the client generator is
always sorted by command name, while the `/commands` listing returns the
commands in registration (insertion) order. -/
theorem C3_enumeration_order (cmds : List CommandInfo) :
    List.Pairwise (fun a b : CommandInfo => strLe a.name b.name = true)
      (generatorCommandOrder cmds) ∧
    (list_commands cmds).map CommandListing.name = cmds.map CommandInfo.name := by
  constructor
  · exact pySorted_pairwise (fun a b : CommandInfo => strLe a.name b.name)
      (fun a b => strLe_total a.name b.name)
      (fun a b c hab hbc => strLe_trans hab hbc) cmds
  · simp [list_commands]

/-! ## Claim C4: duplicate registration -/

/-- C4: registering a command whose name already exists fails with a
conflict message that names both the existing command's module and the
new command's module and leaves the registry unchanged, while registering
a model under an already-registered name is a no-op, never an error. -/
theorem C4_duplicate_registration (r : Registry) (cmd existing : CommandInfo)
    (h : r.commands.find? (fun c => c.name == cmd.name) = some existing) :
    (r.register cmd).1 = r ∧
    (r.register cmd).2 =
      some (conflict_message cmd.name existing.module cmd.module) ∧
    (∃ pre mid post : String,
      conflict_message cmd.name existing.module cmd.module =
        pre ++ existing.module ++ (mid ++ cmd.module ++ post)) ∧
    (∀ m : ModelDef, (r.models.map ModelDef.name).contains m.name = true →
      r.register_model m = r) := by
  refine ⟨?_, ?_, ?_, ?_⟩
  · simp [Registry.register, h]
  · simp [Registry.register, h]
  · refine ⟨"Command name conflict: '" ++ cmd.name ++ "' is defined in both '",
      "' and '", "'. Command names must be unique across all modules.", ?_⟩
    simp [conflict_message, String.append_assoc]
  · intro m hm
    simp only [Registry.register_model, hm, if_true]

/-- C4, witness: a concrete duplicate command registration and a concrete
duplicate model registration. -/
theorem C4_duplicate_registration_witness :
    ((Registry.mk [cmdNamedA] [pointModel]).register
        ⟨"a", [], none, true, none, "modB", false, [], dummyFunc, dummyStream⟩).1 =
      Registry.mk [cmdNamedA] [pointModel] ∧
    ((Registry.mk [cmdNamedA] [pointModel]).register
        ⟨"a", [], none, true, none, "modB", false, [], dummyFunc, dummyStream⟩).2 =
      some (conflict_message "a" "modA" "modB") ∧
    (∃ pre mid post : String,
      conflict_message "a" "modA" "modB" =
        pre ++ "modA" ++ (mid ++ "modB" ++ post)) ∧
    (Registry.mk [cmdNamedA] [pointModel]).register_model
        ⟨"Point", some "other", []⟩ =
      Registry.mk [cmdNamedA] [pointModel] := by
  have h := C4_duplicate_registration (Registry.mk [cmdNamedA] [pointModel])
    ⟨"a", [], none, true, none, "modB", false, [], dummyFunc, dummyStream⟩
    cmdNamedA (by rfl)
  refine ⟨h.1, ?_, h.2.2.1, h.2.2.2 ⟨"Point", some "other", []⟩ (by rfl)⟩
  exact h.2.1

/-! ## State lemmas for the type mapper

The translated string of `_type_to_ts` never reads the threaded
`models_to_generate` set, and the threaded set is congruent under
permutation of its representation list. -/

theorem contains_congr_of_perm {s₁ s₂ : List String} (h : s₁.Perm s₂)
    (x : String) : s₁.contains x = s₂.contains x := by
  by_cases hx : x ∈ s₁
  · have hx2 : x ∈ s₂ := h.mem_iff.mp hx
    simp [List.contains, List.elem_iff, hx, hx2]
  · have hx2 : x ∉ s₂ := fun hc => hx (h.mem_iff.mpr hc)
    simp [List.contains, List.elem_iff, hx, hx2]

theorem setAdd_perm_congr {s₁ s₂ : List String} (h : s₁.Perm s₂)
    (x : String) : (setAdd s₁ x).Perm (setAdd s₂ x) := by
  simp only [setAdd, contains_congr_of_perm h x]
  by_cases hc : s₂.contains x = true
  · simp only [hc, if_true]
    exact h
  · simp only [hc, Bool.false_eq_true, if_false]
    exact h.append (List.Perm.refl [x])

mutual

theorem tyToTs_fst_state_free : ∀ (t : Ty) (s₁ s₂ : List String),
    (tyToTs t s₁).1 = (tyToTs t s₂).1
  | .str, _, _ => rfl
  | .int, _, _ => rfl
  | .float, _, _ => rfl
  | .bool, _, _ => rfl
  | .bytes, _, _ => rfl
  | .noneType, _, _ => rfl
  | .anyT, _, _ => rfl
  | .union args, s₁, s₂ => by
      simp only [tyToTs]
      by_cases hc : ((args.filter (fun a => !a.isNoneType)).length == 1 &&
          args.any Ty.isNoneType) = true
      · simp only [hc, if_true]
        rw [tyToTsFirstNonNone_fst_state_free args s₁ s₂]
      · simp only [hc]
        simp only [Bool.false_eq_true, if_false]
        rw [tyToTsList_fst_state_free args s₁ s₂]
  | .listT [], _, _ => rfl
  | .listT (a :: rest), s₁, s₂ => by
      simp only [tyToTs]
      rw [tyToTs_fst_state_free a s₁ s₂]
  | .dictT [], _, _ => rfl
  | .dictT [k], _, _ => rfl
  | .dictT (k :: v :: rest), s₁, s₂ => by
      simp only [tyToTs]
      rw [tyToTs_fst_state_free k s₁ s₂,
        tyToTs_fst_state_free v (tyToTs k s₁).2 (tyToTs k s₂).2]
  | .tupleT [], _, _ => rfl
  | .tupleT (a :: rest), s₁, s₂ => by
      simp only [tyToTs]
      rw [tyToTsList_fst_state_free (a :: rest) s₁ s₂]
  | .setT [], _, _ => rfl
  | .setT (a :: rest), s₁, s₂ => by
      simp only [tyToTs]
      rw [tyToTs_fst_state_free a s₁ s₂]
  | .generic _ _, _, _ => rfl
  | .model _, _, _ => rfl
  | .otherClass _, _, _ => rfl

theorem tyToTsFirstNonNone_fst_state_free :
    ∀ (ts : List Ty) (s₁ s₂ : List String),
      (tyToTsFirstNonNone ts s₁).1 = (tyToTsFirstNonNone ts s₂).1
  | [], _, _ => rfl
  | t :: ts, s₁, s₂ => by
      simp only [tyToTsFirstNonNone]
      by_cases ht : t.isNoneType = true
      · simp only [ht, if_true]
        exact tyToTsFirstNonNone_fst_state_free ts s₁ s₂
      · simp only [ht]
        simp only [Bool.false_eq_true, if_false]
        exact tyToTs_fst_state_free t s₁ s₂

theorem tyToTsList_fst_state_free : ∀ (ts : List Ty) (s₁ s₂ : List String),
    (tyToTsList ts s₁).1 = (tyToTsList ts s₂).1
  | [], _, _ => rfl
  | t :: ts, s₁, s₂ => by
      simp only [tyToTsList]
      rw [tyToTs_fst_state_free t s₁ s₂,
        tyToTsList_fst_state_free ts (tyToTs t s₁).2 (tyToTs t s₂).2]

end

theorem tyToTsList_fst_map (ts : List Ty) (s : List String) :
    (tyToTsList ts s).1 = ts.map (fun t => (tyToTs t []).1) := by
  induction ts generalizing s with
  | nil => rfl
  | cons t rest ih =>
    simp only [tyToTsList, List.map]
    rw [tyToTs_fst_state_free t s [], ih (tyToTs t s).2]

mutual

theorem tyToTs_snd_perm : ∀ (t : Ty) {s₁ s₂ : List String},
    s₁.Perm s₂ → (tyToTs t s₁).2.Perm (tyToTs t s₂).2
  | .str, _, _, h => h
  | .int, _, _, h => h
  | .float, _, _, h => h
  | .bool, _, _, h => h
  | .bytes, _, _, h => h
  | .noneType, _, _, h => h
  | .anyT, _, _, h => h
  | .union args, s₁, s₂, h => by
      simp only [tyToTs]
      by_cases hc : ((args.filter (fun a => !a.isNoneType)).length == 1 &&
          args.any Ty.isNoneType) = true
      · simp only [hc, if_true]
        exact tyToTsFirstNonNone_snd_perm args h
      · simp only [hc]
        simp only [Bool.false_eq_true, if_false]
        exact tyToTsList_snd_perm args h
  | .listT [], _, _, h => h
  | .listT (a :: rest), s₁, s₂, h => by
      simp only [tyToTs]
      exact tyToTs_snd_perm a h
  | .dictT [], _, _, h => h
  | .dictT [k], _, _, h => h
  | .dictT (k :: v :: rest), s₁, s₂, h => by
      simp only [tyToTs]
      exact tyToTs_snd_perm v (tyToTs_snd_perm k h)
  | .tupleT [], _, _, h => h
  | .tupleT (a :: rest), s₁, s₂, h => by
      simp only [tyToTs]
      exact tyToTsList_snd_perm (a :: rest) h
  | .setT [], _, _, h => h
  | .setT (a :: rest), s₁, s₂, h => by
      simp only [tyToTs]
      exact tyToTs_snd_perm a h
  | .generic _ _, _, _, h => h
  | .model name, s₁, s₂, h => by
      simp only [tyToTs]
      exact setAdd_perm_congr h name
  | .otherClass _, _, _, h => h

theorem tyToTsFirstNonNone_snd_perm : ∀ (ts : List Ty) {s₁ s₂ : List String},
    s₁.Perm s₂ → (tyToTsFirstNonNone ts s₁).2.Perm (tyToTsFirstNonNone ts s₂).2
  | [], _, _, h => h
  | t :: ts, s₁, s₂, h => by
      simp only [tyToTsFirstNonNone]
      by_cases ht : t.isNoneType = true
      · simp only [ht, if_true]
        exact tyToTsFirstNonNone_snd_perm ts h
      · simp only [ht]
        simp only [Bool.false_eq_true, if_false]
        exact tyToTs_snd_perm t h

theorem tyToTsList_snd_perm : ∀ (ts : List Ty) {s₁ s₂ : List String},
    s₁.Perm s₂ → (tyToTsList ts s₁).2.Perm (tyToTsList ts s₂).2
  | [], _, _, h => h
  | t :: ts, s₁, s₂, h => by
      simp only [tyToTsList]
      exact tyToTsList_snd_perm ts (tyToTs_snd_perm t h)

end

/-! ## Claim C7: union mapping -/

theorem tyToTsFirstNonNone_of_filter_singleton :
    ∀ (args : List Ty) (a : Ty) (s : List String),
      args.filter (fun t => !t.isNoneType) = [a] →
      tyToTsFirstNonNone args s = tyToTs a s := by
  intro args
  induction args with
  | nil => intro a s h; simp at h
  | cons t ts ih =>
    intro a s h
    by_cases ht : t.isNoneType = true
    · have hf : (t :: ts).filter (fun x => !x.isNoneType) =
          ts.filter (fun x => !x.isNoneType) := by
        simp [List.filter_cons, ht]
      rw [hf] at h
      simp only [tyToTsFirstNonNone, ht, if_true]
      exact ih a s h
    · have hf : (t :: ts).filter (fun x => !x.isNoneType) =
          t :: ts.filter (fun x => !x.isNoneType) := by
        simp [List.filter_cons, ht]
      rw [hf] at h
      have hta : t = a := (List.cons.injEq _ _ _ _).mp h |>.1
      simp only [tyToTsFirstNonNone, ht, Bool.false_eq_true, if_false]
      rw [hta]

/-- C7: the type mapper sends a `Union` with exactly one non-`None`
variant and a `None` variant present to the mapped non-null variant
joined with `null` (the `Optional` form), and sends every other `Union`
to the order-preserving disjunction of each variant's independent
translation. -/
theorem C7_union_mapping (args : List Ty) (s : List String) :
    (∀ a : Ty, args.filter (fun t => !t.isNoneType) = [a] →
        args.any Ty.isNoneType = true →
        tyToTs (Ty.union args) s =
          ((tyToTs a s).1 ++ " | null", (tyToTs a s).2)) ∧
    (((args.filter (fun t => !t.isNoneType)).length == 1 &&
        args.any Ty.isNoneType) = false →
      (tyToTs (Ty.union args) s).1 =
        String.intercalate " | " (args.map (fun t => (tyToTs t []).1))) := by
  constructor
  · intro a hf ha
    have hc : ((args.filter (fun t => !t.isNoneType)).length == 1 &&
        args.any Ty.isNoneType) = true := by
      rw [hf, ha]; rfl
    have hfn := tyToTsFirstNonNone_of_filter_singleton args a s hf
    simp only [tyToTs, hc, if_true]
    rw [hfn]
  · intro hc
    simp only [tyToTs, hc, Bool.false_eq_true, if_false]
    have hm := tyToTsList_fst_map args s
    rcases h2 : tyToTsList args s with ⟨parts, s'⟩
    rw [h2] at hm
    simp only at hm
    simp only [h2, hm]

/-- C7, witness: `Union[int, None]` collapses to `number | null`; the
general union `Union[int, str]` maps to `number | string`. -/
theorem C7_union_mapping_witness :
    tyToTs (Ty.union [Ty.int, Ty.noneType]) [] = ("number | null", []) ∧
    (tyToTs (Ty.union [Ty.int, Ty.str]) []).1 = "number | string" := by
  constructor
  · have h := (C7_union_mapping [Ty.int, Ty.noneType] []).1 Ty.int (by rfl) (by rfl)
    simpa using h
  · have h := (C7_union_mapping [Ty.int, Ty.str] []).2 (by rfl)
    simpa using h

/-! ## Claim C5: request/response dispatch -/

theorem lookup_cons_self {β : Type} (k : String) (v : β) (t : List (String × β)) :
    List.lookup k ((k, v) :: t) = some v := by
  simp [List.lookup]

theorem lookup_cons_ne {β : Type} (p k : String) (v : β) (t : List (String × β))
    (h : p ≠ k) : List.lookup p ((k, v) :: t) = List.lookup p t := by
  have hb : (p == k) = false := by simp [h]
  simp [List.lookup, hb]

theorem contains_cons_ne (p k : String) (t : List String) (h : p ≠ k) :
    (k :: t).contains p = t.contains p := by
  simp [List.contains, h]

/-- Characterization of the dispatcher's keyword binding: the bound map
answers exactly the declared parameter names, with the values the request
args supply, and nothing else. -/
theorem bind_arguments_lookup {β γ : Type} (params : List (String × γ))
    (args : List (String × β)) (hnodup : (params.map Prod.fst).Nodup)
    (p : String) :
    (params.filterMap (fun pt => (args.lookup pt.1).map (fun v => (pt.1, v)))).lookup p =
      if (params.map Prod.fst).contains p then args.lookup p else none := by
  induction params with
  | nil => simp
  | cons pt rest ih =>
    rw [List.map_cons] at hnodup
    have hn := List.nodup_cons.mp hnodup
    have ihr := ih hn.2
    simp only [List.filterMap_cons, List.map_cons]
    cases hl : args.lookup pt.1 with
    | none =>
      simp only [Option.map_none']
      rw [ihr]
      by_cases hp : p = pt.1
      · have hcr : (rest.map Prod.fst).contains p = false := by
          simp only [List.contains, List.elem_eq_mem, decide_eq_false_iff_not]
          rw [hp]
          exact hn.1
        have hcc : (pt.1 :: rest.map Prod.fst).contains p = true := by
          simp [List.contains, hp]
        simp only [hcr, hcc, if_true, Bool.false_eq_true, if_false]
        rw [hp, hl]
      · simp only [contains_cons_ne p pt.1 _ hp]
    | some v =>
      simp only [Option.map_some']
      by_cases hp : p = pt.1
      · rw [hp, lookup_cons_self]
        have hcc : (pt.1 :: rest.map Prod.fst).contains pt.1 = true := by
          simp [List.contains]
        simp only [hcc, if_true]
        rw [hl]
      · rw [lookup_cons_ne p pt.1 v _ hp, ihr]
        simp only [contains_cons_ne p pt.1 _ hp]

/-- C5: the dispatcher binds exactly the argument keys that match
declared parameter names - extra keys are ignored and missing keys are
simply absent - and maps a handler `TypeError` to `ValidationError`
wrapping the message, any other handler exception to
`CommandExecutionError` wrapping the message, and a normal result to the
serialized result. -/
theorem C5_dispatch (cmd : CommandInfo) (args : List (String × Val))
    (hnodup : (cmd.params.map Prod.fst).Nodup) :
    (∀ p : String, (bind_arguments cmd args).lookup p =
        if (cmd.params.map Prod.fst).contains p then args.lookup p else none) ∧
    (∀ v, cmd.func (bind_arguments cmd args) = PyOutcome.ok v →
        execute_command cmd args = ExecResult.ok (serialize_result v)) ∧
    (∀ e, cmd.func (bind_arguments cmd args) = PyOutcome.typeError e →
        execute_command cmd args =
          ExecResult.validationError ("Invalid arguments: " ++ e)) ∧
    (∀ e, cmd.func (bind_arguments cmd args) = PyOutcome.exn e →
        execute_command cmd args = ExecResult.commandExecutionError e) := by
  refine ⟨?_, ?_, ?_, ?_⟩
  · intro p
    exact bind_arguments_lookup cmd.params args hnodup p
  · intro v hv
    simp [execute_command, hv]
  · intro e he
    simp [execute_command, he]
  · intro e he
    simp [execute_command, he]

/-- Example command for exercising the dispatcher: one declared parameter
`x`, echoing it back, raising a `TypeError` when it is absent. -/
def echoCmd : CommandInfo :=
  ⟨"echo_x", [("x", Ty.int)], some Ty.int, true, none, "modE", false,
    [("x", Ty.int)],
    fun kw =>
      match kw.lookup "x" with
      | some v => PyOutcome.ok v
      | none => PyOutcome.typeError "missing x",
    dummyStream⟩

/-- C5, witness: invoking the example command with a matching key and an
extra key succeeds with the bound value; invoking it with only an
unmatched key yields `ValidationError`. -/
theorem C5_dispatch_witness :
    execute_command echoCmd [("x", Val.vint 3), ("junk", Val.vnone)] =
      ExecResult.ok (Val.vint 3) ∧
    execute_command echoCmd [("junk", Val.vnone)] =
      ExecResult.validationError ("Invalid arguments: " ++ "missing x") := by
  constructor
  · exact (C5_dispatch echoCmd [("x", Val.vint 3), ("junk", Val.vnone)]
      (by decide)).2.1 (Val.vint 3) (by rfl)
  · exact (C5_dispatch echoCmd [("junk", Val.vnone)]
      (by decide)).2.2.1 "missing x" (by rfl)

/-! ## Claims C6 and C8: streaming -/

theorem channel_send_frames (v : Val) {ch : Channel}
    (h : ch.isTerminated = false) :
    (ch.send v).frames = ch.frames ++ [Frame.data v] ∧
    (ch.send v).isTerminated = false := by
  have h' : ch.frames.any Frame.isTerminal = false := h
  have hfr : (ch.send v).frames = ch.frames ++ [Frame.data v] := by
    simp only [Channel.send, Channel.isTerminated, h', Bool.false_eq_true,
      if_false]
  refine ⟨hfr, ?_⟩
  show (ch.send v).frames.any Frame.isTerminal = false
  rw [hfr, List.any_append, h']
  rfl

theorem channel_send_fold (sends : List Val) :
    ∀ {ch : Channel}, ch.isTerminated = false →
      (sends.foldl Channel.send ch).frames =
        ch.frames ++ sends.map Frame.data ∧
      (sends.foldl Channel.send ch).isTerminated = false := by
  induction sends with
  | nil => intro ch h; simpa using h
  | cons v rest ih =>
    intro ch h
    have hs := channel_send_frames v h
    have hr := ih hs.2
    simp only [List.foldl, List.map]
    constructor
    · rw [hr.1, hs.1, List.append_assoc]
      rfl
    · exact hr.2

/-- C6: for a streaming command run on a fresh channel, a handler that
returns normally yields the channel holding its data frames in send
order followed by the `close` frame, and a handler that raises yields the
data frames followed by an `error` frame carrying the failure message;
the dispatcher itself returns the channel either way, so no exception
reaches its caller. -/
theorem C6_streaming_dispatch (cmd : CommandInfo) (args : List (String × Val))
    (sends : List Val) (oc : Option String)
    (h : cmd.funcStream (bind_arguments cmd args) = (sends, oc)) :
    (execute_channel_command cmd args freshChannel).frames =
      sends.map Frame.data ++
        [match oc with
         | none => Frame.close
         | some e => Frame.error e] := by
  have hfresh : freshChannel.isTerminated = false := rfl
  have hfold := channel_send_fold sends hfresh
  simp only [execute_channel_command, h]
  cases oc with
  | none =>
    have hcl : ((sends.foldl Channel.send freshChannel).close).frames =
        (sends.foldl Channel.send freshChannel).frames ++ [Frame.close] := by
      simp only [Channel.close, hfold.2, Bool.false_eq_true, if_false]
    rw [hcl, hfold.1]
    simp [freshChannel]
  | some e =>
    have hcl : ((sends.foldl Channel.send freshChannel).send_error e).frames =
        (sends.foldl Channel.send freshChannel).frames ++ [Frame.error e] := by
      simp only [Channel.send_error, hfold.2, Bool.false_eq_true, if_false]
    rw [hcl, hfold.1]
    simp [freshChannel]

/-- Example streaming command: pushes `1` then `2`, then raises. -/
def tickCmd : CommandInfo :=
  ⟨"tick", [], none, true, none, "modT", true, [],
    dummyFunc, fun _ => ([Val.vint 1, Val.vint 2], some "boom")⟩

/-- C6, witness: the failing streaming handler leaves the two data frames
followed by the error frame carrying the message. -/
theorem C6_streaming_dispatch_witness :
    (execute_channel_command tickCmd [] freshChannel).frames =
      [Frame.data (Val.vint 1), Frame.data (Val.vint 2), Frame.error "boom"] := by
  have h := C6_streaming_dispatch tickCmd [] [Val.vint 1, Val.vint 2]
    (some "boom") (by rfl)
  simpa using h

theorem applyOp_terminated {ch : Channel} (op : ProducerOp)
    (h : ch.isTerminated = true) : applyOp ch op = ch := by
  cases op with
  | send v => simp [applyOp, Channel.send, h]
  | sendError msg => simp [applyOp, Channel.send_error, h]
  | closeOp => simp [applyOp, Channel.close, h]

theorem applyOps_terminated (ops : List ProducerOp) {ch : Channel}
    (h : ch.isTerminated = true) : applyOps ch ops = ch := by
  induction ops with
  | nil => rfl
  | cons op rest ih =>
    show applyOps (applyOp ch op) rest = ch
    rw [applyOp_terminated op h]
    exact ih

theorem terminal_append_terminated (ch : Channel) (f : Frame)
    (hf : f.isTerminal = true) :
    (Channel.mk (ch.frames ++ [f])).isTerminated = true := by
  show (ch.frames ++ [f]).any Frame.isTerminal = true
  rw [List.any_append]
  simp [hf]

theorem applyOps_frames (ops : List ProducerOp) (opT : ProducerOp) :
    ∀ {ch : Channel}, ch.isTerminated = false →
      ops.find? ProducerOp.isTerminal = some opT →
      (applyOps ch ops).frames =
        ch.frames ++
          (ops.takeWhile (fun o => !o.isTerminal)).filterMap
            ProducerOp.dataFrame ++
          [opT.terminalFrame] := by
  induction ops with
  | nil => intro ch _ hfind; simp at hfind
  | cons op rest ih =>
    intro ch hch hfind
    cases op with
    | send v =>
      have hsend := channel_send_frames v hch
      have hfind' : rest.find? ProducerOp.isTerminal = some opT := by
        simpa [List.find?, ProducerOp.isTerminal] using hfind
      have hrec := ih hsend.2 hfind'
      show (applyOps (ch.send v) rest).frames = _
      rw [hrec, hsend.1]
      simp [List.takeWhile, ProducerOp.isTerminal, ProducerOp.dataFrame,
        List.filterMap_cons, List.append_assoc]
    | sendError msg =>
      have hopT : opT = ProducerOp.sendError msg := by
        have h1 : some (ProducerOp.sendError msg) = some opT := by
          simpa [List.find?, ProducerOp.isTerminal] using hfind
        exact (Option.some_inj.mp h1).symm
      have h' : ch.frames.any Frame.isTerminal = false := hch
      have hfr : (ch.send_error msg).frames = ch.frames ++ [Frame.error msg] := by
        simp only [Channel.send_error, Channel.isTerminated, h',
          Bool.false_eq_true, if_false]
      have hterm : (ch.send_error msg).isTerminated = true := by
        show (ch.send_error msg).frames.any Frame.isTerminal = true
        rw [hfr, List.any_append]
        simp [Frame.isTerminal]
      show (applyOps (ch.send_error msg) rest).frames = _
      rw [applyOps_terminated rest hterm, hfr, hopT]
      simp [List.takeWhile, ProducerOp.isTerminal, ProducerOp.terminalFrame]
    | closeOp =>
      have hopT : opT = ProducerOp.closeOp := by
        have h1 : some ProducerOp.closeOp = some opT := by
          simpa [List.find?, ProducerOp.isTerminal] using hfind
        exact (Option.some_inj.mp h1).symm
      have h' : ch.frames.any Frame.isTerminal = false := hch
      have hfr : (ch.close).frames = ch.frames ++ [Frame.close] := by
        simp only [Channel.close, Channel.isTerminated, h',
          Bool.false_eq_true, if_false]
      have hterm : (ch.close).isTerminated = true := by
        show (ch.close).frames.any Frame.isTerminal = true
        rw [hfr, List.any_append]
        simp [Frame.isTerminal]
      show (applyOps (ch.close) rest).frames = _
      rw [applyOps_terminated rest hterm, hfr, hopT]
      simp [List.takeWhile, ProducerOp.isTerminal, ProducerOp.terminalFrame]

theorem observeFrames_data_terminal (l : List Frame) (t : Frame)
    (hl : ∀ f ∈ l, f.isTerminal = false) (ht : t.isTerminal = true) :
    observeFrames (l ++ [t]) = l ++ [t] := by
  induction l with
  | nil => simp [observeFrames, ht]
  | cons f rest ih =>
    have hf : f.isTerminal = false := hl f (by simp)
    have hrest : ∀ g ∈ rest, g.isTerminal = false := fun g hg => hl g (by simp [hg])
    simp only [List.cons_append, observeFrames, hf, Bool.false_eq_true,
      if_false, List.append_eq]
    rw [ih hrest]

/-- C8: applying any producer sequence containing a terminal operation to
a fresh channel leaves exactly the data frames sent before the first
terminal operation, in send order, followed by that single terminal
frame; a terminated channel accepts no further frame from any operation;
and the consumer loop delivers exactly this frame sequence. -/
theorem C8_channel_framing (ops : List ProducerOp) (opT : ProducerOp)
    (hfind : ops.find? ProducerOp.isTerminal = some opT) :
    (applyOps freshChannel ops).frames =
      (ops.takeWhile (fun o => !o.isTerminal)).filterMap
        ProducerOp.dataFrame ++ [opT.terminalFrame] ∧
    (∀ (ch : Channel) (op : ProducerOp), ch.isTerminated = true →
      applyOp ch op = ch) ∧
    observeFrames (applyOps freshChannel ops).frames =
      (applyOps freshChannel ops).frames := by
  have hfresh : freshChannel.isTerminated = false := rfl
  have hframes := applyOps_frames ops opT hfresh hfind
  have hdata : ∀ f ∈ (ops.takeWhile (fun o => !o.isTerminal)).filterMap
      ProducerOp.dataFrame, f.isTerminal = false := by
    intro f hf
    rcases List.mem_filterMap.mp hf with ⟨o, _, ho⟩
    cases o with
    | send v =>
      simp only [ProducerOp.dataFrame] at ho
      rw [← Option.some_inj.mp ho]
      rfl
    | sendError msg => simp [ProducerOp.dataFrame] at ho
    | closeOp => simp [ProducerOp.dataFrame] at ho
  have hterm : opT.terminalFrame.isTerminal = true := by
    have hopT : opT.isTerminal = true := List.find?_some hfind
    cases opT with
    | send v => simp [ProducerOp.isTerminal] at hopT
    | sendError msg => rfl
    | closeOp => rfl
  refine ⟨?_, ?_, ?_⟩
  · simpa using hframes
  · intro ch op h
    exact applyOp_terminated op h
  · rw [hframes]
    have := observeFrames_data_terminal
      ((ops.takeWhile (fun o => !o.isTerminal)).filterMap ProducerOp.dataFrame)
      opT.terminalFrame hdata hterm
    simpa using this

/-- C8, witness: two sends followed by a close and then further ignored
operations produce exactly the two data frames and one close frame. -/
theorem C8_channel_framing_witness :
    (applyOps freshChannel
        [ProducerOp.send (Val.vint 1), ProducerOp.send (Val.vint 2),
         ProducerOp.closeOp, ProducerOp.send (Val.vint 3),
         ProducerOp.sendError "late"]).frames =
      [Frame.data (Val.vint 1), Frame.data (Val.vint 2), Frame.close] := by
  have h := C8_channel_framing
    [ProducerOp.send (Val.vint 1), ProducerOp.send (Val.vint 2),
     ProducerOp.closeOp, ProducerOp.send (Val.vint 3),
     ProducerOp.sendError "late"] ProducerOp.closeOp (by rfl)
  simpa using h.1

/-! ## Claim C10: the `channel` parameter -/

/-- C10: a function parameter literally named `channel` is never included
in the registered command's parameter list; its presence is exactly what
sets the stream flag; the streaming stub's payload type is read from the
generic argument of the `channel` annotation (falling back to `unknown`
when the annotation or its arguments are absent) and the stub is
unchanged under any replacement of the command's return type. -/
theorem C10_channel_param (customName : Option String) (fnName : String)
    (sig : List String) (hints : List (String × Ty)) (doc : Option String)
    (module : String) (isAsync : Bool)
    (func : List (String × Val) → PyOutcome)
    (funcStream : List (String × Val) → List Val × Option String)
    (cmd : CommandInfo)
    (hcmd : cmd = build_command_info customName fnName sig hints doc module
      isAsync func funcStream) :
    ("channel" ∉ cmd.params.map Prod.fst) ∧
    (cmd.has_channel = sig.contains "channel") ∧
    (cmd.has_channel = true → ∀ (rt : Option Ty) (s : List String),
      generate_command_function { cmd with return_type := rt } s =
        generate_command_function cmd s) ∧
    (∀ (ch : Ty) (a : Ty) (rest : List Ty) (s : List String),
      hints.lookup "channel" = some ch → pyGetArgs ch = a :: rest →
      channel_return_type cmd s = tyToTs a s) ∧
    (∀ s : List String, hints.lookup "channel" = none →
      channel_return_type cmd s = ("unknown", s)) := by
  refine ⟨?_, ?_, ?_, ?_, ?_⟩
  · rw [hcmd]
    intro hmem
    rcases List.mem_map.mp hmem with ⟨pt, hpt, hfst⟩
    rcases List.mem_filterMap.mp hpt with ⟨p, _, hp⟩
    by_cases hpc : p == "channel"
    · simp [build_command_info, hpc] at hp
    · simp only [build_command_info, hpc, Bool.false_eq_true, if_false] at hp
      have := Option.some_inj.mp hp
      rw [← this] at hfst
      simp at hfst
      exact absurd hfst (by simpa using hpc)
  · rw [hcmd]
    rfl
  · intro hch rt s
    simp only [generate_command_function, channel_return_type]
    have h1 : ({ cmd with return_type := rt } : CommandInfo).has_channel =
        cmd.has_channel := rfl
    simp only [h1, hch, if_true]
  · intro ch a rest s hlk hargs
    rw [hcmd]
    simp only [channel_return_type, build_command_info, hlk, hargs]
  · intro s hlk
    rw [hcmd]
    simp only [channel_return_type, build_command_info, hlk]

/-- C10, witness: a concrete streaming declaration - signature
`(count, channel)` with `channel : Channel[int]` - registers only
`count`, is flagged streaming, takes its payload type `number` from the
channel annotation, and its stub ignores the return annotation. -/
theorem C10_channel_param_witness :
    ("channel" ∉ (build_command_info none "tick" ["count", "channel"]
        [("count", Ty.int), ("channel", Ty.generic "Channel" [Ty.int]),
         ("return", Ty.noneType)] none "modT" true dummyFunc
        dummyStream).params.map Prod.fst) ∧
    (build_command_info none "tick" ["count", "channel"]
        [("count", Ty.int), ("channel", Ty.generic "Channel" [Ty.int]),
         ("return", Ty.noneType)] none "modT" true dummyFunc
        dummyStream).has_channel = true ∧
    channel_return_type (build_command_info none "tick" ["count", "channel"]
        [("count", Ty.int), ("channel", Ty.generic "Channel" [Ty.int]),
         ("return", Ty.noneType)] none "modT" true dummyFunc
        dummyStream) [] = ("number", []) := by
  have h := C10_channel_param none "tick" ["count", "channel"]
    [("count", Ty.int), ("channel", Ty.generic "Channel" [Ty.int]),
     ("return", Ty.noneType)] none "modT" true dummyFunc dummyStream _ rfl
  refine ⟨h.1, ?_, ?_⟩
  · rw [h.2.1]
    rfl
  · have h4 := h.2.2.2.1 (Ty.generic "Channel" [Ty.int]) Ty.int [] []
      (by rfl) (by rfl)
    simpa using h4

/-! ## Claim C2: unresolved model references -/

/-- Structural substring occurrence test on character lists, used to
state facts about generated output. -/
def listContainsSub (needle : List Char) : List Char → Bool
  | [] => needle.isEmpty
  | c :: rest => needle.isPrefixOf (c :: rest) || listContainsSub needle rest

/-- Occurrence of `needle` as a substring of `hay`. -/
def strOccurs (needle hay : String) : Bool := listContainsSub needle.data hay.data

set_option maxRecDepth 8000 in
/-- C2, counterexample: a command whose return annotation references the
unregistered model name `Ghost` still generates successfully - the
output mentions `Promise<Ghost>` but contains no `export interface`
declaration at all, and the worklist loop simply marks `Ghost` generated
while emitting nothing, instead of failing. -/
theorem C2_counterexample :
    strOccurs "export interface" (generate [ghostCmd] [] "2024-01-01T00:00:00") = false ∧
    strOccurs "Promise<Ghost>" (generate [ghostCmd] [] "2024-01-01T00:00:00") = true ∧
    genModelLoop [] 2 ["Ghost"] [] [] = ([], ["Ghost"]) := by
  refine ⟨by decide, by decide, by decide⟩

/-- C2, amended: during generation every worklist name is looked up in
the model registry; a resolvable name has its interface emitted, while a
name that resolves to nothing is silently skipped - it is marked as
generated, contributes no declaration, and generation completes without
any error. -/
theorem C2_unresolved_skipped (models : List ModelDef)
    (names mtg gen acc : List String) :
    (processBatch models names mtg gen acc).2.1 = names.foldl setAdd gen ∧
    (processBatch models names mtg gen acc).2.2.length =
      acc.length + (names.filter
        (fun n => (models.find? (fun m => m.name == n)).isSome)).length := by
  induction names generalizing mtg gen acc with
  | nil => simp [processBatch]
  | cons n rest ih =>
    simp only [processBatch]
    cases hfind : models.find? (fun m => m.name == n) with
    | some m =>
      have := ih (generate_model_interface m mtg).2 (setAdd gen n)
        (acc ++ [generate_model_interface m mtg |>.1])
      refine ⟨this.1, ?_⟩
      rw [this.2]
      simp only [List.filter_cons, hfind, Option.isSome_some, if_true,
        List.length_append, List.length_cons]
      simp
      omega
    | none =>
      have := ih mtg (setAdd gen n) acc
      refine ⟨this.1, ?_⟩
      rw [this.2]
      simp only [List.filter_cons, hfind, Option.isSome_none]
      simp

/-! ## Claim C9: termination of the model collector

The fuel bound `collectBound` is sufficient: adding fuel beyond it never
changes the result, which is the shallow-embedding statement that the
unbounded Python recursion terminates with exactly this value.  The key
facts are that the visited set only grows, that each model expansion
strictly shrinks the set of unvisited registered names, and that a name
with no registered class has no fields to recurse into. -/

theorem contains_eq_true_iff (l : List String) (x : String) :
    l.contains x = true ↔ x ∈ l := by
  simp [List.contains, List.elem_iff]

theorem contains_eq_false_iff (l : List String) (x : String) :
    l.contains x = false ↔ x ∉ l := by
  rw [← Bool.not_eq_true, not_iff_not]
  exact contains_eq_true_iff l x

theorem nodup_append_singleton {v : List String} {x : String}
    (hv : v.Nodup) (hx : x ∉ v) : (v ++ [x]).Nodup := by
  rw [List.nodup_append]
  refine ⟨hv, List.nodup_singleton x, ?_⟩
  intro a hav hax
  rw [List.mem_singleton] at hax
  rw [hax] at hav
  exact hx hav

mutual

theorem collectStep_subset (env : List ModelDef)
    (expand : List Ty → List String → List String)
    (hexp : ∀ fs w, w ⊆ expand fs w) :
    ∀ (t : Ty) (v : List String), v ⊆ collectStep env expand t v
  | .str, v => fun _ hx => hx
  | .int, v => fun _ hx => hx
  | .float, v => fun _ hx => hx
  | .bool, v => fun _ hx => hx
  | .bytes, v => fun _ hx => hx
  | .noneType, v => fun _ hx => hx
  | .anyT, v => fun _ hx => hx
  | .union args, v => collectStepList_subset env expand hexp args v
  | .listT args, v => collectStepList_subset env expand hexp args v
  | .dictT args, v => collectStepList_subset env expand hexp args v
  | .tupleT args, v => collectStepList_subset env expand hexp args v
  | .setT args, v => collectStepList_subset env expand hexp args v
  | .generic _ args, v => collectStepList_subset env expand hexp args v
  | .model name, v => by
      simp only [collectStep]
      by_cases hc : v.contains name = true
      · simp only [hc, if_true]
        exact fun _ hx => hx
      · simp only [hc, Bool.false_eq_true, if_false]
        intro x hx
        exact hexp _ _ (List.mem_append_left [name] hx)
  | .otherClass _, v => fun _ hx => hx

theorem collectStepList_subset (env : List ModelDef)
    (expand : List Ty → List String → List String)
    (hexp : ∀ fs w, w ⊆ expand fs w) :
    ∀ (ts : List Ty) (v : List String), v ⊆ collectStepList env expand ts v
  | [], v => fun _ hx => hx
  | t :: ts, v => by
      intro x hx
      exact collectStepList_subset env expand hexp ts _
        (collectStep_subset env expand hexp t v hx)

end

theorem collectFuel_fold_subset (env : List ModelDef) (g : Nat)
    (hsub : ∀ (t : Ty) (v : List String), v ⊆ collectFuel env g t v) :
    ∀ (fs : List Ty) (w : List String),
      w ⊆ fs.foldl (fun acc ty => collectFuel env g ty acc) w := by
  intro fs
  induction fs with
  | nil => intro w x hx; exact hx
  | cons t ts ih =>
    intro w x hx
    exact ih (collectFuel env g t w) (hsub t w hx)

theorem collectFuel_subset (env : List ModelDef) :
    ∀ (f : Nat) (t : Ty) (v : List String), v ⊆ collectFuel env f t v := by
  intro f
  induction f with
  | zero =>
    intro t v
    exact collectStep_subset env _ (fun fs w _ hx => hx) t v
  | succ g ih =>
    intro t v
    exact collectStep_subset env _
      (fun fs w => collectFuel_fold_subset env g ih fs w) t v

mutual

theorem collectStep_congr (env : List ModelDef)
    (e₁ e₂ : List Ty → List String → List String)
    (hs : ∀ fs w, w ⊆ e₁ fs w) :
    ∀ (t : Ty) (v : List String),
      (∀ name w, v ⊆ w → w.contains name = false →
        e₁ (lookupFields env name) (w ++ [name]) =
          e₂ (lookupFields env name) (w ++ [name])) →
      collectStep env e₁ t v = collectStep env e₂ t v
  | .str, v, _ => rfl
  | .int, v, _ => rfl
  | .float, v, _ => rfl
  | .bool, v, _ => rfl
  | .bytes, v, _ => rfl
  | .noneType, v, _ => rfl
  | .anyT, v, _ => rfl
  | .union args, v, hag => collectStepList_congr env e₁ e₂ hs args v hag
  | .listT args, v, hag => collectStepList_congr env e₁ e₂ hs args v hag
  | .dictT args, v, hag => collectStepList_congr env e₁ e₂ hs args v hag
  | .tupleT args, v, hag => collectStepList_congr env e₁ e₂ hs args v hag
  | .setT args, v, hag => collectStepList_congr env e₁ e₂ hs args v hag
  | .generic _ args, v, hag => collectStepList_congr env e₁ e₂ hs args v hag
  | .model name, v, hag => by
      simp only [collectStep]
      by_cases hc : v.contains name = true
      · simp only [hc, if_true]
      · simp only [hc, Bool.false_eq_true, if_false]
        exact hag name v (fun _ hx => hx) (by simpa using hc)
  | .otherClass _, v, _ => rfl

theorem collectStepList_congr (env : List ModelDef)
    (e₁ e₂ : List Ty → List String → List String)
    (hs : ∀ fs w, w ⊆ e₁ fs w) :
    ∀ (ts : List Ty) (v : List String),
      (∀ name w, v ⊆ w → w.contains name = false →
        e₁ (lookupFields env name) (w ++ [name]) =
          e₂ (lookupFields env name) (w ++ [name])) →
      collectStepList env e₁ ts v = collectStepList env e₂ ts v
  | [], v, _ => rfl
  | t :: ts, v, hag => by
      simp only [collectStepList]
      have h1 : collectStep env e₁ t v = collectStep env e₂ t v :=
        collectStep_congr env e₁ e₂ hs t v hag
      rw [← h1]
      have hsub : v ⊆ collectStep env e₁ t v :=
        collectStep_subset env e₁ hs t v
      exact collectStepList_congr env e₁ e₂ hs ts (collectStep env e₁ t v)
        (fun name w hvw hw => hag name w (fun x hx => hvw (hsub hx)) hw)

end

theorem lookupFields_of_not_mem {env : List ModelDef} {name : String}
    (h : name ∉ modelNamesDedup env) : lookupFields env name = [] := by
  unfold lookupFields
  have hfind : env.find? (fun m => m.name == name) = none := by
    apply List.find?_eq_none.mpr
    intro m hm hbeq
    apply h
    unfold modelNamesDedup
    rw [List.mem_dedup]
    have : m.name = name := by simpa using hbeq
    rw [← this]
    exact List.mem_map_of_mem ModelDef.name hm
  rw [hfind]

theorem contains_false_of_subset {v w : List String} {x : String}
    (hvw : v ⊆ w) (hw : w.contains x = false) : v.contains x = false := by
  rw [contains_eq_false_iff] at hw ⊢
  intro hx
  exact hw (hvw hx)

theorem collectBound_mono (env : List ModelDef) {v w : List String}
    (hvw : v ⊆ w) : collectBound env w ≤ collectBound env v := by
  unfold collectBound
  apply List.Sublist.length_le
  apply List.monotone_filter_right
  intro a ha
  simp only [Bool.not_eq_true'] at ha ⊢
  exact contains_false_of_subset hvw ha

theorem length_filter_ne_of_nodup :
    ∀ (l : List String) (a : String), l.Nodup → a ∈ l →
      (l.filter (fun x => !(x == a))).length + 1 = l.length := by
  intro l
  induction l with
  | nil => intro a _ ha; simp at ha
  | cons b bs ih =>
    intro a hnd ha
    have hnd' := List.nodup_cons.mp hnd
    by_cases hb : b = a
    · have hfilter : bs.filter (fun x => !(x == a)) = bs := by
        apply List.filter_eq_self.mpr
        intro x hx
        have : x ≠ a := by
          intro hxa
          rw [hxa, ← hb] at hx
          exact hnd'.1 hx
        simpa using this
      simp only [List.filter_cons, hb]
      simp [hfilter]
    · have ha' : a ∈ bs := by
        rcases List.mem_cons.mp ha with h | h
        · exact absurd h.symm hb
        · exact h
      have hkeep : (!(b == a)) = true := by simpa using hb
      simp only [List.filter_cons, hkeep, if_true, List.length_cons]
      rw [← ih a hnd'.2 ha']

theorem collectBound_append_fresh (env : List ModelDef) {v : List String}
    {name : String} (hmem : name ∈ modelNamesDedup env)
    (hnot : v.contains name = false) :
    collectBound env (v ++ [name]) + 1 = collectBound env v := by
  unfold collectBound
  have hpt : ∀ n : String,
      (!(v ++ [name]).contains n) = ((!(n == name)) && !v.contains n) := by
    intro n
    by_cases hvn : n ∈ v
    · rw [(contains_eq_true_iff v n).mpr hvn,
        (contains_eq_true_iff (v ++ [name]) n).mpr (List.mem_append_left _ hvn)]
      cases hb : (n == name) <;> rfl
    · by_cases hnn : n = name
      · have hm : n ∈ v ++ [name] :=
          List.mem_append_right v (by simp [hnn])
        rw [(contains_eq_true_iff (v ++ [name]) n).mpr hm,
          (contains_eq_false_iff v n).mpr hvn,
          show (n == name) = true by simpa using hnn]
        rfl
      · have hm : n ∉ v ++ [name] := by
          rw [List.mem_append]
          rintro (h | h)
          · exact hvn h
          · exact hnn (by simpa using h)
        rw [(contains_eq_false_iff (v ++ [name]) n).mpr hm,
          (contains_eq_false_iff v n).mpr hvn,
          show (n == name) = false by simpa using hnn]
        rfl
  have heq : (modelNamesDedup env).filter (fun n => !(v ++ [name]).contains n) =
      ((modelNamesDedup env).filter (fun n => !v.contains n)).filter
        (fun n => !(n == name)) := by
    rw [List.filter_filter]
    apply List.filter_congr
    intro n _
    rw [hpt n]
  rw [heq]
  apply length_filter_ne_of_nodup
  · exact List.Nodup.filter _ (List.nodup_dedup _)
  · rw [List.mem_filter]
    exact ⟨hmem, by simpa using hnot⟩

theorem collectFuel_fold_stable (env : List ModelDef) (g : Nat)
    (hstep : ∀ (t : Ty) (v : List String), collectBound env v ≤ g →
      collectFuel env (g + 1) t v = collectFuel env g t v) :
    ∀ (fs : List Ty) (w : List String), collectBound env w ≤ g →
      fs.foldl (fun acc ty => collectFuel env (g + 1) ty acc) w =
        fs.foldl (fun acc ty => collectFuel env g ty acc) w := by
  intro fs
  induction fs with
  | nil => intro w _; rfl
  | cons t ts ih =>
    intro w hw
    simp only [List.foldl]
    rw [hstep t w hw]
    apply ih
    exact le_trans (collectBound_mono env (collectFuel_subset env g t w)) hw

theorem collectFuel_stable (env : List ModelDef) :
    ∀ (f : Nat) (t : Ty) (v : List String), collectBound env v ≤ f →
      collectFuel env (f + 1) t v = collectFuel env f t v := by
  intro f
  induction f with
  | zero =>
    intro t v hv
    show collectStep env _ t v = collectStep env _ t v
    apply collectStep_congr env _ _
      (fun fs w => collectFuel_fold_subset env 0 (collectFuel_subset env 0) fs w)
      t v
    intro name w hvw hcont
    have hU : collectBound env v = 0 := Nat.le_zero.mp hv
    have hnm : name ∉ modelNamesDedup env := by
      intro hmem
      have hvn : v.contains name = false :=
        contains_false_of_subset hvw hcont
      have : name ∈ (modelNamesDedup env).filter (fun n => !v.contains n) := by
        rw [List.mem_filter]
        exact ⟨hmem, by simpa using hvn⟩
      have := List.length_pos_of_mem this
      unfold collectBound at hU
      omega
    rw [lookupFields_of_not_mem hnm]
    rfl
  | succ g ih =>
    intro t v hv
    show collectStep env _ t v = collectStep env _ t v
    apply collectStep_congr env _ _
      (fun fs w =>
        collectFuel_fold_subset env (g + 1) (collectFuel_subset env (g + 1)) fs w)
      t v
    intro name w hvw hcont
    by_cases hmem : name ∈ modelNamesDedup env
    · have hfresh := collectBound_append_fresh env hmem hcont
      have hmw : collectBound env w ≤ collectBound env v :=
        collectBound_mono env hvw
      have hUw : collectBound env (w ++ [name]) ≤ g := by omega
      exact collectFuel_fold_stable env g ih (lookupFields env name)
        (w ++ [name]) hUw
    · rw [lookupFields_of_not_mem hmem]
      rfl

theorem collectFuel_add_stable (env : List ModelDef) (t : Ty)
    (v : List String) :
    ∀ k : Nat, collectFuel env (collectBound env v + k) t v =
      collectFuel env (collectBound env v) t v := by
  intro k
  induction k with
  | zero => rfl
  | succ j ihj =>
    have hs := collectFuel_stable env (collectBound env v + j) t v
      (by omega)
    calc collectFuel env (collectBound env v + (j + 1)) t v
        = collectFuel env ((collectBound env v + j) + 1) t v := by
          rw [Nat.add_succ]
      _ = collectFuel env (collectBound env v + j) t v := hs
      _ = collectFuel env (collectBound env v) t v := ihj

mutual

theorem collectStep_nodup (env : List ModelDef)
    (expand : List Ty → List String → List String)
    (hexp : ∀ fs w, w.Nodup → (expand fs w).Nodup) :
    ∀ (t : Ty) (v : List String), v.Nodup → (collectStep env expand t v).Nodup
  | .str, v, hv => hv
  | .int, v, hv => hv
  | .float, v, hv => hv
  | .bool, v, hv => hv
  | .bytes, v, hv => hv
  | .noneType, v, hv => hv
  | .anyT, v, hv => hv
  | .union args, v, hv => collectStepList_nodup env expand hexp args v hv
  | .listT args, v, hv => collectStepList_nodup env expand hexp args v hv
  | .dictT args, v, hv => collectStepList_nodup env expand hexp args v hv
  | .tupleT args, v, hv => collectStepList_nodup env expand hexp args v hv
  | .setT args, v, hv => collectStepList_nodup env expand hexp args v hv
  | .generic _ args, v, hv => collectStepList_nodup env expand hexp args v hv
  | .model name, v, hv => by
      simp only [collectStep]
      by_cases hc : v.contains name = true
      · simp only [hc, if_true]
        exact hv
      · simp only [hc, Bool.false_eq_true, if_false]
        apply hexp
        apply nodup_append_singleton hv
        intro hmem
        rw [show v.contains name = true by
          simpa [List.contains, List.elem_iff] using hmem] at hc
        exact hc rfl
  | .otherClass _, v, hv => hv

theorem collectStepList_nodup (env : List ModelDef)
    (expand : List Ty → List String → List String)
    (hexp : ∀ fs w, w.Nodup → (expand fs w).Nodup) :
    ∀ (ts : List Ty) (v : List String), v.Nodup →
      (collectStepList env expand ts v).Nodup
  | [], _, hv => hv
  | t :: ts, v, hv =>
      collectStepList_nodup env expand hexp ts _
        (collectStep_nodup env expand hexp t v hv)

end

theorem collectFuel_nodup (env : List ModelDef) :
    ∀ (f : Nat) (t : Ty) (v : List String), v.Nodup →
      (collectFuel env f t v).Nodup := by
  intro f
  induction f with
  | zero =>
    intro t v hv
    exact collectStep_nodup env _ (fun _ _ h => h) t v hv
  | succ g ih =>
    intro t v hv
    apply collectStep_nodup env _ ?hexp t v hv
    intro fs w hw
    induction fs generalizing w with
    | nil => exact hw
    | cons ty tys ihf => exact ihf (collectFuel env g ty w) (ih ty w hw)

theorem collect_model_mem (env : List ModelDef) (name : String) :
    ∀ f : Nat, name ∈ collectFuel env f (Ty.model name) [] := by
  intro f
  cases f with
  | zero =>
    show name ∈ collectStep env _ (Ty.model name) []
    simp [collectStep, List.contains]
  | succ g =>
    show name ∈ collectStep env _ (Ty.model name) []
    have hc : ([] : List String).contains name = false := rfl
    simp only [collectStep, hc, Bool.false_eq_true, if_false]
    apply collectFuel_fold_subset env g (collectFuel_subset env g)
    simp

/-- C9: the model collector is fuel-stable at the registry bound - its
result with any fuel at least `collectBound` equals its result at the
bound, which is the embedding-level statement that the recursion
terminates on every type graph, self-references included - and applied
to a (possibly self-referential) record reference on an empty visited
set it returns a set containing that record's name exactly once. -/
theorem C9_collect_terminates (env : List ModelDef) (t : Ty)
    (v : List String) (name : String) (f : Nat)
    (hf : collectBound env v ≤ f) :
    collectFuel env f t v = collectFuel env (collectBound env v) t v ∧
    (collect_models_from_type env (some (Ty.model name)) []).count name = 1 := by
  constructor
  · obtain ⟨k, hk⟩ := Nat.exists_eq_add_of_le hf
    rw [hk]
    exact collectFuel_add_stable env t v k
  · have hmem : name ∈ collect_models_from_type env (some (Ty.model name)) [] :=
      collect_model_mem env name (collectBound env [])
    have hnd : (collect_models_from_type env (some (Ty.model name)) []).Nodup :=
      collectFuel_nodup env (collectBound env []) (Ty.model name) []
        List.nodup_nil
    exact List.count_eq_one_of_mem hnd hmem

/-- Example self-referential record environment: `Node.next : Node`. -/
def nodeEnv : List ModelDef :=
  [⟨"Node", none, [("next", ⟨Ty.model "Node", true, none⟩)]⟩]

/-- C9, witness: on the self-referential `Node` environment the collector
is fuel-stable at the bound and collects `Node` exactly once. -/
theorem C9_collect_terminates_witness :
    collectFuel nodeEnv 5 (Ty.model "Node") [] =
      collectFuel nodeEnv (collectBound nodeEnv []) (Ty.model "Node") [] ∧
    (collect_models_from_type nodeEnv (some (Ty.model "Node")) []).count
      "Node" = 1 :=
  C9_collect_terminates nodeEnv (Ty.model "Node") [] "Node" 5 (by decide)

/-! ## Claim C1: generation determinism

The timestamp embedded in the header makes byte-identity across calls
fail; with the clock reading fixed, the output is a function of the
registry content alone - insertion order of the command and model dicts
does not matter, because command enumeration is sorted and the worklist
is drained in sorted batches. -/

theorem fieldLines_fst_state_free (fld : String × FieldInfo)
    (s₁ s₂ : List String) : (fieldLines fld s₁).1 = (fieldLines fld s₂).1 := by
  simp only [fieldLines]
  rw [tyToTs_fst_state_free fld.2.typeAnn s₁ s₂]

theorem fieldLines_snd_perm (fld : String × FieldInfo)
    {s₁ s₂ : List String} (h : s₁.Perm s₂) :
    (fieldLines fld s₁).2.Perm (fieldLines fld s₂).2 := by
  simp only [fieldLines]
  exact tyToTs_snd_perm fld.2.typeAnn h

theorem fieldFold_congr (fields : List (String × FieldInfo)) :
    ∀ (acc : List String) {s₁ s₂ : List String}, s₁.Perm s₂ →
      (fields.foldl
        (fun (acc : List String × List String) fld =>
          let (ls, s'') := fieldLines fld acc.2
          (acc.1 ++ ls, s'')) (acc, s₁)).1 =
      (fields.foldl
        (fun (acc : List String × List String) fld =>
          let (ls, s'') := fieldLines fld acc.2
          (acc.1 ++ ls, s'')) (acc, s₂)).1 ∧
      (fields.foldl
        (fun (acc : List String × List String) fld =>
          let (ls, s'') := fieldLines fld acc.2
          (acc.1 ++ ls, s'')) (acc, s₁)).2.Perm
      (fields.foldl
        (fun (acc : List String × List String) fld =>
          let (ls, s'') := fieldLines fld acc.2
          (acc.1 ++ ls, s'')) (acc, s₂)).2 := by
  induction fields with
  | nil => intro acc s₁ s₂ h; exact ⟨rfl, h⟩
  | cons fld rest ih =>
    intro acc s₁ s₂ h
    simp only [List.foldl]
    rw [show (fieldLines fld s₁).1 = (fieldLines fld s₂).1 from
      fieldLines_fst_state_free fld s₁ s₂]
    exact ih (acc ++ (fieldLines fld s₂).1) (fieldLines_snd_perm fld h)

theorem generate_model_interface_congr (m : ModelDef) {s₁ s₂ : List String}
    (h : s₁.Perm s₂) :
    (generate_model_interface m s₁).1 = (generate_model_interface m s₂).1 ∧
    (generate_model_interface m s₁).2.Perm
      (generate_model_interface m s₂).2 := by
  simp only [generate_model_interface]
  have hf := fieldFold_congr m.fields [] h
  exact ⟨by rw [hf.1], hf.2⟩

theorem find?_name_eq_of_perm {models₁ models₂ : List ModelDef}
    (hp : models₁.Perm models₂) (hn : (models₁.map ModelDef.name).Nodup)
    (n : String) :
    models₁.find? (fun m => m.name == n) =
      models₂.find? (fun m => m.name == n) := by
  cases hfind : models₁.find? (fun m => m.name == n) with
  | some m =>
    have hmem : m ∈ models₁ := List.mem_of_find?_eq_some hfind
    have hpm : (m.name == n) = true :=
      @List.find?_some ModelDef (fun m => m.name == n) m models₁ hfind
    have hmem₂ : m ∈ models₂ := hp.mem_iff.mp hmem
    have hsome : (models₂.find? (fun m => m.name == n)).isSome := by
      rw [List.find?_isSome]
      exact ⟨m, hmem₂, hpm⟩
    rcases Option.isSome_iff_exists.mp hsome with ⟨m', hm'⟩
    have hmem' : m' ∈ models₁ := hp.mem_iff.mpr (List.mem_of_find?_eq_some hm')
    have hpm' : (m'.name == n) = true :=
      @List.find?_some ModelDef (fun m => m.name == n) m' models₂ hm'
    have heqn : m.name = m'.name := by
      have h1 : m.name = n := by simpa using hpm
      have h2 : m'.name = n := by simpa using hpm'
      rw [h1, h2]
    have : m = m' :=
      List.inj_on_of_nodup_map hn hmem hmem' heqn
    rw [hm', this]
  | none =>
    have hnone := List.find?_eq_none.mp hfind
    symm
    apply List.find?_eq_none.mpr
    intro x hx
    exact hnone x (hp.mem_iff.mpr hx)

theorem setAdd_of_mem {s : List String} {x : String} (h : x ∈ s) :
    setAdd s x = s := by
  simp only [setAdd, (contains_eq_true_iff s x).mpr h, if_true]

theorem setAdd_of_not_mem {s : List String} {x : String} (h : x ∉ s) :
    setAdd s x = s ++ [x] := by
  simp only [setAdd, (contains_eq_false_iff s x).mpr h, Bool.false_eq_true,
    if_false]

theorem setAdd_swap (s : List String) (x y : String) :
    (setAdd (setAdd s x) y).Perm (setAdd (setAdd s y) x) := by
  by_cases hxy : x = y
  · rw [hxy]
  · by_cases hx : x ∈ s
    · by_cases hy : y ∈ s
      · rw [setAdd_of_mem hx, setAdd_of_mem hy, setAdd_of_mem hx]
      · rw [setAdd_of_mem hx, setAdd_of_not_mem hy,
          setAdd_of_mem (List.mem_append_left [y] hx)]
    · by_cases hy : y ∈ s
      · rw [setAdd_of_not_mem hx, setAdd_of_mem hy,
          setAdd_of_mem (List.mem_append_left [x] hy), setAdd_of_not_mem hx]
      · have hyx : y ∉ s ++ [x] := by
          rw [List.mem_append]
          rintro (h | h)
          · exact hy h
          · exact hxy (List.mem_singleton.mp h).symm
        have hxy' : x ∉ s ++ [y] := by
          rw [List.mem_append]
          rintro (h | h)
          · exact hx h
          · exact hxy (List.mem_singleton.mp h)
        rw [setAdd_of_not_mem hx, setAdd_of_not_mem hyx,
          setAdd_of_not_mem hy, setAdd_of_not_mem hxy']
        rw [List.append_assoc, List.append_assoc]
        exact List.Perm.append_left s (List.Perm.swap y x [])

theorem foldl_setAdd_start_congr (ms : List String) :
    ∀ {s₁ s₂ : List String}, s₁.Perm s₂ →
      (ms.foldl setAdd s₁).Perm (ms.foldl setAdd s₂) := by
  induction ms with
  | nil => intro s₁ s₂ h; exact h
  | cons x rest ih =>
    intro s₁ s₂ h
    exact ih (setAdd_perm_congr h x)

theorem foldl_setAdd_perm {ms₁ ms₂ : List String} (hp : ms₁.Perm ms₂) :
    ∀ s : List String, (ms₁.foldl setAdd s).Perm (ms₂.foldl setAdd s) := by
  induction hp with
  | nil => intro s; exact List.Perm.refl _
  | cons x hp' ih => intro s; exact ih (setAdd s x)
  | swap x y l =>
    intro s
    show (l.foldl setAdd (setAdd (setAdd s y) x)).Perm
      (l.foldl setAdd (setAdd (setAdd s x) y))
    exact foldl_setAdd_start_congr l (setAdd_swap s y x)
  | trans h₁ h₂ ih₁ ih₂ =>
    intro s
    exact (ih₁ s).trans (ih₂ s)

theorem processBatch_congr {models₁ models₂ : List ModelDef}
    (hp : models₁.Perm models₂) (hn : (models₁.map ModelDef.name).Nodup) :
    ∀ (names : List String) {mtg₁ mtg₂ : List String}
      (hm : mtg₁.Perm mtg₂) (gen acc : List String),
      (processBatch models₁ names mtg₁ gen acc).1.Perm
        (processBatch models₂ names mtg₂ gen acc).1 ∧
      (processBatch models₁ names mtg₁ gen acc).2.1 =
        (processBatch models₂ names mtg₂ gen acc).2.1 ∧
      (processBatch models₁ names mtg₁ gen acc).2.2 =
        (processBatch models₂ names mtg₂ gen acc).2.2 := by
  intro names
  induction names with
  | nil => intro mtg₁ mtg₂ hm gen acc; exact ⟨hm, rfl, rfl⟩
  | cons n rest ih =>
    intro mtg₁ mtg₂ hm gen acc
    simp only [processBatch]
    rw [← find?_name_eq_of_perm hp hn n]
    cases hfind : models₁.find? (fun m => m.name == n) with
    | some m =>
      dsimp only
      have hgmi := generate_model_interface_congr m hm
      rw [show (generate_model_interface m mtg₁).1 =
        (generate_model_interface m mtg₂).1 from hgmi.1]
      exact ih hgmi.2 (setAdd gen n)
        (acc ++ [(generate_model_interface m mtg₂).1])
    | none =>
      dsimp only
      exact ih hm (setAdd gen n) acc

theorem isEmpty_eq_of_perm {l₁ l₂ : List String} (h : l₁.Perm l₂) :
    l₁.isEmpty = l₂.isEmpty := by
  have hl := h.length_eq
  cases l₁ with
  | nil =>
    have : l₂ = [] := List.length_eq_zero.mp (by simpa using hl.symm)
    rw [this]
  | cons a t =>
    cases l₂ with
    | nil => simp at hl
    | cons b u => rfl

theorem genModelLoop_congr {models₁ models₂ : List ModelDef}
    (hp : models₁.Perm models₂) (hn : (models₁.map ModelDef.name).Nodup) :
    ∀ (fuel : Nat) {mtg₁ mtg₂ : List String} (hm : mtg₁.Perm mtg₂)
      (gen acc : List String),
      genModelLoop models₁ fuel mtg₁ gen acc =
        genModelLoop models₂ fuel mtg₂ gen acc := by
  intro fuel
  induction fuel with
  | zero => intro mtg₁ mtg₂ _ gen acc; rfl
  | succ f ih =>
    intro mtg₁ mtg₂ hm gen acc
    simp only [genModelLoop]
    have hbp : (mtg₁.filter (fun n => !gen.contains n)).Perm
        (mtg₂.filter (fun n => !gen.contains n)) := hm.filter _
    have hie := isEmpty_eq_of_perm hbp
    by_cases he : (mtg₂.filter (fun n => !gen.contains n)).isEmpty = true
    · rw [hie, he]
      simp only [if_true]
    · have he' : (mtg₂.filter (fun n => !gen.contains n)).isEmpty = false :=
        Bool.not_eq_true _ |>.mp he
      rw [hie, he']
      simp only [Bool.false_eq_true, if_false]
      have hsorted : pySorted strLe (mtg₁.filter (fun n => !gen.contains n)) =
          pySorted strLe (mtg₂.filter (fun n => !gen.contains n)) := by
        apply sorted_strings_unique
        · exact ((pySorted_perm _ _).trans hbp).trans (pySorted_perm _ _).symm
        · exact pySorted_pairwise strLe strLe_total
            (fun a b c hab hbc => strLe_trans hab hbc) _
        · exact pySorted_pairwise strLe strLe_total
            (fun a b c hab hbc => strLe_trans hab hbc) _
      rw [hsorted]
      have hc := processBatch_congr hp hn
        (pySorted strLe (mtg₂.filter (fun n => !gen.contains n))) hm gen acc
      rcases hpb₁ : processBatch models₁
          (pySorted strLe (mtg₂.filter (fun n => !gen.contains n)))
          mtg₁ gen acc with ⟨m₁, g₁, a₁⟩
      rcases hpb₂ : processBatch models₂
          (pySorted strLe (mtg₂.filter (fun n => !gen.contains n)))
          mtg₂ gen acc with ⟨m₂, g₂, a₂⟩
      rw [hpb₁, hpb₂] at hc
      simp only at hc
      rw [hc.2.1, hc.2.2]
      exact ih hc.1 g₂ a₂

/-- C1, counterexample: the generated client embeds the clock reading in
its header, so two successive calls on the very same (here: empty)
registry at different instants produce different bytes. -/
theorem C1_counterexample :
    generate [] [] "2024-01-01T00:00:00" ≠
      generate [] [] "2024-01-01T00:00:01" := by
  decide

/-- C1, amended: with the clock reading fixed, generation is a function
of the registry content alone: two registry states holding the same
commands and the same models - in any insertion order - produce
byte-identical output, the sorted command enumeration and sorted
worklist draining being what removes the order dependence. -/
theorem C1_generate_deterministic (cmds₁ cmds₂ : List CommandInfo)
    (models₁ models₂ : List ModelDef) (now : String)
    (hpc : cmds₁.Perm cmds₂) (hnc : (cmds₁.map CommandInfo.name).Nodup)
    (hpm : models₁.Perm models₂) (hnm : (models₁.map ModelDef.name).Nodup) :
    generate cmds₁ models₁ now = generate cmds₂ models₂ now := by
  unfold generate
  rw [generatorCommandOrder_eq_of_perm hpc hnc]
  rcases hcf : (generatorCommandOrder cmds₂).foldl
      (fun (acc : List String × List String) c =>
        let (code, s') := generate_command_function c acc.2
        (acc.1 ++ [code], s')) ([], []) with ⟨cfn, mtg1⟩
  simp only
  have hseed : (models₁.foldl (fun s m => setAdd s m.name) mtg1).Perm
      (models₂.foldl (fun s m => setAdd s m.name) mtg1) := by
    rw [show models₁.foldl (fun s m => setAdd s m.name) mtg1 =
        (models₁.map ModelDef.name).foldl setAdd mtg1 from
      (List.foldl_map ModelDef.name setAdd models₁ mtg1).symm]
    rw [show models₂.foldl (fun s m => setAdd s m.name) mtg1 =
        (models₂.map ModelDef.name).foldl setAdd mtg1 from
      (List.foldl_map ModelDef.name setAdd models₂ mtg1).symm]
    exact foldl_setAdd_perm (hpm.map ModelDef.name) mtg1
  have hfuel : generatorFuel models₁
      (models₁.foldl (fun s m => setAdd s m.name) mtg1) =
      generatorFuel models₂
        (models₂.foldl (fun s m => setAdd s m.name) mtg1) := by
    unfold generatorFuel
    rw [hseed.length_eq,
      (hpm.map (fun m => (m.fields.map (fun f => tySize f.2.typeAnn)).sum)).sum_eq]
  rw [hfuel]
  rw [genModelLoop_congr hpm hnm
    (generatorFuel models₂ (models₂.foldl (fun s m => setAdd s m.name) mtg1))
    hseed [] []]

/-- C1, witness: swapping the registration order of two commands (and
keeping the same model) yields byte-identical generated output at a
fixed clock reading. -/
theorem C1_generate_deterministic_witness :
    generate [cmdNamedA, cmdNamedB] [pointModel] "2024-01-01T00:00:00" =
      generate [cmdNamedB, cmdNamedA] [pointModel] "2024-01-01T00:00:00" :=
  C1_generate_deterministic [cmdNamedA, cmdNamedB] [cmdNamedB, cmdNamedA]
    [pointModel] [pointModel] "2024-01-01T00:00:00"
    (List.Perm.swap cmdNamedB cmdNamedA []) (by decide)
    (List.Perm.refl _) (by decide)
